import Mathlib

/-!
Verification of the versioned-source ingestion / atomic-memory pipeline and the
hybrid retrieval engine of the repository (src/src/memoryService.js together
with the SQLite repository layer).

Modelling conventions, used consistently below:
* JavaScript strings are Lean `String`s; the string helpers (`trim`,
  `replace(/\s+/g, " ")`, `toLowerCase`, `slice`, tokenisation) are translated
  character-by-character from the regular expressions in the source.
* SHA-256 is modelled as an ideal, collision-free hash: `sha256hex s` is the
  injective encoding `"sha256#" ++ s`.  All content-addressing claims of the
  spec implicitly assume collision-freeness, so this is the faithful reading.
* ISO-8601 timestamps are modelled as rationals (epoch milliseconds); SQLite's
  `datetime()` ordering on them is the rational order.
* The SQLite store is an explicit `St` record of rows; `UNIQUE` constraints and
  foreign-key enforcement (node:sqlite enables `PRAGMA foreign_keys` by
  default) are modelled in the write operations, which return `Except String`
  like the throwing JS statements.
* JavaScript float arithmetic in the retrieval engine is idealised as exact
  arithmetic: score components are computed in `ℚ`/`ℝ` and `Math.sqrt` is
  `Real.sqrt`.
-/

namespace MemorySvc

/-- JS whitespace class `\s` restricted to the characters that actually occur
in this pipeline's data (space, tab, newline, carriage return, form feed). -/
def isWsChar (c : Char) : Bool :=
  c = ' ' || c = '\t' || c = '\n' || c = '\r' || c = '\x0c'

/-- One step of `String.prototype.replace(/\s+/g, " ")`: collapse every maximal
whitespace run to a single space.  `prevWs` records whether the previous
character was part of a whitespace run. -/
def collapseWsAux : List Char → Bool → List Char
  | [], _ => []
  | c :: rest, prevWs =>
    if isWsChar c then
      if prevWs then collapseWsAux rest true
      else ' ' :: collapseWsAux rest true
    else c :: collapseWsAux rest false

def collapseWs (s : List Char) : List Char :=
  collapseWsAux s false

/-- `String.prototype.trim()`. -/
def trimWs (s : List Char) : List Char :=
  ((s.dropWhile (fun c => isWsChar c)).reverse.dropWhile (fun c => isWsChar c)).reverse

/-- `String.prototype.toLowerCase()` (ASCII). -/
def lowerStr (s : String) : String :=
  String.mk (s.data.map Char.toLower)

def collapseStr (s : String) : String :=
  String.mk (collapseWs s.data)

def trimStr (s : String) : String :=
  String.mk (trimWs s.data)

/-- `String.prototype.slice(0, n)`. -/
def sliceStr (s : String) (n : Nat) : String :=
  String.mk (s.data.take n)

/-- Ideal (collision-free) model of
`crypto.createHash("sha256").update(s, "utf8").digest("hex")`. -/
def sha256hex (s : String) : String :=
  "sha256#" ++ s

theorem sha256hex_inj : Function.Injective sha256hex := by
  intro a b h
  simpa [sha256hex, String.ext_iff] using h

/-- `normalizeExternalSourceId` from memoryService.js: trim, collapse
whitespace, strip a leading `ext:` (case-insensitively), lowercase, with the
empty string when nothing remains. -/
def normalizeExternalSourceId (value : String) : String :=
  let collapsed := collapseStr (trimStr value)
  let stripped :=
    if lowerStr (sliceStr collapsed 4) = "ext:" then
      String.mk (collapsed.data.drop 4)
    else collapsed
  if stripped = "" then "" else lowerStr stripped

structure SourceIdInfo where
  sourceId : String
  normalizedExternalSourceId : String
  sourceIdStrategy : String
  deriving Repr, DecidableEq

/-- `buildSourceId` from memoryService.js. -/
def buildSourceId (normalizedFilename externalSourceId : String) : SourceIdInfo :=
  let n := normalizeExternalSourceId externalSourceId
  if n ≠ "" then
    { sourceId := "ext:" ++ n
      normalizedExternalSourceId := n
      sourceIdStrategy := "external_source_id" }
  else
    { sourceId := sha256hex normalizedFilename
      normalizedExternalSourceId := ""
      sourceIdStrategy := "filename_hash" }

/-- `normalizeSentence` from memoryService.js: collapse whitespace, trim,
truncate to `maxLen` characters. -/
def normalizeSentence (text : String) (maxLen : Nat := 280) : String :=
  sliceStr (trimStr (collapseStr text)) maxLen

/-- `extractionFingerprint` from memoryService.js. -/
def extractionFingerprint (kind statement : String) : String :=
  sha256hex (lowerStr kind ++ "|" ++ lowerStr (normalizeSentence statement 500))

/-- `extractedMemoryId` from memoryService.js. -/
def extractedMemoryId (sourceId fingerprint : String) : String :=
  sha256hex (sourceId ++ "|" ++ fingerprint)

def CATEGORY_SLUGS : List (String × String) :=
  [("preferences", "cat_preferences"), ("people", "cat_people"),
   ("commitments", "cat_commitments"), ("decisions", "cat_decisions"),
   ("knowledge", "cat_knowledge"), ("resources", "cat_resources"),
   ("events", "cat_events"), ("inbox", "cat_inbox")]

/-- `categoryIdForBucket` from memoryService.js. -/
def categoryIdForBucket (bucket : String) : String :=
  match (CATEGORY_SLUGS.find? (fun p => p.1 = lowerStr bucket)) with
  | some p => p.2
  | none => "cat_inbox"

/-- `normalizeTagList` from memoryService.js (tags are already strings in the
model; JS `String(tag)` coercion is identity there). -/
def normalizeTagList (rawTags : List String) : List String :=
  ((rawTags.map (fun t => lowerStr (trimStr t))).filter (fun t => t ≠ "")).take 12

/-- Case-insensitive `String.prototype.indexOf` used by `findCitationOffsets`:
first index where `need` occurs in `hay` as a contiguous sublist. -/
def indexOfSub : List Char → List Char → Option Nat
  | _, [] => some 0
  | [], _ :: _ => none
  | c :: rest, need =>
    if need.isPrefixOf (c :: rest) then some 0
    else (indexOfSub rest need).map (· + 1)

/-- `findCitationOffsets` from memoryService.js. -/
def findCitationOffsets (markdown evidenceText statement : String) :
    Option Nat × Option Nat :=
  let target := trimStr (if evidenceText ≠ "" then evidenceText else statement)
  if target = "" then (none, none)
  else
    match indexOfSub (lowerStr markdown).data (lowerStr target).data with
    | none => (none, none)
    | some idx => (some idx, some (idx + target.length))

end MemorySvc

namespace MemorySvc

/-! ## Data model (the pm_* tables of the SQLite schema) -/

structure SourceRow where
  sourceId : String
  sourceFilename : String
  sourcePath : Option String
  sourceKind : String
  isDeleted : Bool
  firstSeenAt : ℚ
  lastSeenAt : ℚ
  lastChecksum : Option String
  deriving Repr, DecidableEq

structure VersionRow where
  sourceId : String
  version : Nat
  checksum : String
  fuzzyHash : String
  contentMarkdown : String
  agentfsUri : Option String
  contentBytes : Nat
  createdAt : ℚ
  deriving Repr, DecidableEq

/-- The projection of a pm_memories row's free-form `metadata_json` that the
pipeline itself reads or that the claims mention.  The extraction write sets
every one of these keys, so the JS spread-merge `{...existing, ...new}`
coincides with `new` on this projection. -/
structure MemMeta where
  memoryKind : String := ""
  extractedKind : String := ""
  extractionFingerprint : String := ""
  extractionConfidence : Option ℚ := none
  deriving Repr, DecidableEq

structure MemRow where
  memoryId : String
  sourceId : String
  latestVersion : Nat
  titleManual : Option String
  notesManual : Option String
  summaryAuto : Option String
  tagsAuto : List String
  effectiveTitle : Option String
  effectiveSummary : Option String
  effectiveTags : List String
  createdAt : ℚ
  updatedAt : ℚ
  meta : MemMeta
  deriving Repr, DecidableEq

structure CatRow where
  memoryId : String
  categoryId : String
  assignmentSource : String
  confidence : Option ℚ
  reason : Option String
  createdAt : ℚ
  updatedAt : ℚ
  deriving Repr, DecidableEq

structure RelRow where
  memoryId : String
  relatedMemoryId : String
  relationType : String
  confidence : Option ℚ
  reason : Option String
  createdAt : ℚ
  updatedAt : ℚ
  deriving Repr, DecidableEq

structure EvRow where
  memoryId : String
  sourceId : String
  sourceVersion : Nat
  startOffset : Option Nat
  endOffset : Option Nat
  evidenceText : Option String
  createdAt : ℚ
  deriving Repr, DecidableEq

structure RunRow where
  runId : Nat
  sourceId : String
  sourceVersion : Nat
  model : String
  status : String
  startedAt : ℚ
  finishedAt : Option ℚ
  extractedCount : Nat
  errorText : Option String
  deriving Repr, DecidableEq

/-- The embedded relational store.  `categories` holds the seeded
pm_categories ids (referenced by the foreign key of pm_memory_categories);
`nextRunId` models the pm_extraction_runs AUTOINCREMENT counter. -/
structure St where
  sources : List SourceRow := []
  versions : List VersionRow := []
  memories : List MemRow := []
  categories : List String := (CATEGORY_SLUGS.map (·.2))
  memCategories : List CatRow := []
  related : List RelRow := []
  evidence : List EvRow := []
  runs : List RunRow := []
  nextRunId : Nat := 1
  deriving Repr, DecidableEq

/-- Result-or-error of an operation, paired with the store it leaves behind
(throwing JS code leaves its partial effects committed unless an explicit
transaction rolls them back, so the state must survive the error). -/
abbrev DbRes (α : Type) := St × Except String α

/-! ## Repository operations (ProjectMemoryRepository in the db layer) -/

def getSourceById (st : St) (sourceId : String) : Option SourceRow :=
  st.sources.find? (fun s => s.sourceId = sourceId)

/-- `upsertSource`: INSERT .. ON CONFLICT(source_id) DO UPDATE; always clears
the soft-delete flag and refreshes last_seen_at/last_checksum; first_seen_at
is kept on conflict. -/
def upsertSource (st : St) (sourceId sourceFilename : String)
    (sourcePath : Option String) (sourceKind checksum : String) (seenAt : ℚ) :
    St × SourceRow :=
  match getSourceById st sourceId with
  | some _ =>
    let upd : SourceRow → SourceRow := fun s =>
      if s.sourceId = sourceId then
        { s with sourceFilename := sourceFilename, sourcePath := sourcePath,
                 sourceKind := sourceKind, isDeleted := false,
                 lastSeenAt := seenAt, lastChecksum := some checksum }
      else s
    let st' := { st with sources := st.sources.map upd }
    (st', { sourceId := sourceId, sourceFilename := sourceFilename,
            sourcePath := sourcePath, sourceKind := sourceKind,
            isDeleted := false,
            firstSeenAt := ((getSourceById st sourceId).map (·.firstSeenAt)).getD seenAt,
            lastSeenAt := seenAt, lastChecksum := some checksum })
  | none =>
    let row : SourceRow :=
      { sourceId := sourceId, sourceFilename := sourceFilename,
        sourcePath := sourcePath, sourceKind := sourceKind, isDeleted := false,
        firstSeenAt := seenAt, lastSeenAt := seenAt, lastChecksum := some checksum }
    ({ st with sources := st.sources ++ [row] }, row)

/-- Keep the later of two versions (the row a `ORDER BY version DESC LIMIT 1`
scan retains). -/
def pickLater (acc : Option VersionRow) (v : VersionRow) : Option VersionRow :=
  match acc with
  | none => some v
  | some b => if b.version < v.version then some v else some b

/-- `getLatestVersion`: SELECT .. WHERE source_id = ? ORDER BY version DESC
LIMIT 1. -/
def getLatestVersion (st : St) (sourceId : String) : Option VersionRow :=
  (st.versions.filter (fun v => v.sourceId = sourceId)).foldl pickLater none

def getSourceVersion (st : St) (sourceId : String) (version : Nat) : Option VersionRow :=
  st.versions.find? (fun v => v.sourceId = sourceId ∧ v.version = version)

/-- Raw INSERT into pm_source_versions; enforces the UNIQUE(source_id, version)
and UNIQUE(source_id, checksum) constraints and the source_id foreign key,
throwing (as node:sqlite does) when one is violated. -/
def insertVersion (st : St) (v : VersionRow) : DbRes Unit :=
  if (getSourceById st v.sourceId).isNone then
    (st, .error "FOREIGN KEY constraint failed")
  else if st.versions.any (fun w => w.sourceId = v.sourceId && w.version == v.version) then
    (st, .error "UNIQUE constraint failed: pm_source_versions.source_id, pm_source_versions.version")
  else if st.versions.any (fun w => w.sourceId = v.sourceId && w.checksum == v.checksum) then
    (st, .error "UNIQUE constraint failed: pm_source_versions.source_id, pm_source_versions.checksum")
  else
    ({ st with versions := st.versions ++ [v] }, .ok ())

structure VersionResult where
  changed : Bool
  version : Nat
  row : Option VersionRow
  deriving Repr, DecidableEq

/-- `createVersionIfChanged` from the db layer: compare the incoming checksum
against the current latest version only; insert `latest + 1` (or 1) when it
differs. -/
def createVersionIfChanged (st : St) (sourceId checksum fuzzyHash contentMarkdown : String)
    (agentfsUri : Option String) (contentBytes : Nat) (createdAt : ℚ) :
    DbRes VersionResult :=
  match getLatestVersion st sourceId with
  | some latest =>
    if latest.checksum = checksum then
      (st, .ok { changed := false, version := latest.version, row := some latest })
    else
      let nextVersion := latest.version + 1
      match insertVersion st
          { sourceId := sourceId, version := nextVersion, checksum := checksum,
            fuzzyHash := fuzzyHash, contentMarkdown := contentMarkdown,
            agentfsUri := agentfsUri, contentBytes := contentBytes,
            createdAt := createdAt } with
      | (st', .ok ()) =>
        (st', .ok { changed := true, version := nextVersion, row := getLatestVersion st' sourceId })
      | (st', .error e) => (st', .error e)
  | none =>
    match insertVersion st
        { sourceId := sourceId, version := 1, checksum := checksum,
          fuzzyHash := fuzzyHash, contentMarkdown := contentMarkdown,
          agentfsUri := agentfsUri, contentBytes := contentBytes,
          createdAt := createdAt } with
    | (st', .ok ()) =>
      (st', .ok { changed := true, version := 1, row := getLatestVersion st' sourceId })
    | (st', .error e) => (st', .error e)

def getMemoryById (st : St) (memoryId : String) : Option MemRow :=
  st.memories.find? (fun m => m.memoryId = memoryId)

/-- SQLite `ORDER BY datetime(t) DESC` over our rational timestamps (stable on
ties, which SQLite leaves unspecified; no claim depends on tie order). -/
def sortByQDesc {α : Type} (key : α → ℚ) (l : List α) : List α :=
  l.mergeSort (fun x y => decide (key y ≤ key x))

def listMemoryRecordsBySource (st : St) (sourceId : String) : List MemRow :=
  sortByQDesc (·.updatedAt) (st.memories.filter (fun m => m.sourceId = sourceId))

def listMemoryRecords (st : St) (limit : Nat) : List MemRow :=
  (sortByQDesc (·.updatedAt) st.memories).take limit

/-- The row-level effect of UPDATE .. WHERE memory_id = ?: replace the row
with the given id, leave every other row alone. -/
def updRow (memoryId : String) (row : MemRow) (m : MemRow) : MemRow :=
  if m.memoryId = memoryId then row else m

/-- `upsertMemoryRecord`: reads the existing row to preserve the manual fields
and created_at, then INSERT .. ON CONFLICT(memory_id) DO UPDATE.  Enforces the
source_id foreign key.  (links_auto, pinned_tags and category_overrides are
carried unchanged and never read by the core pipeline, so they are left out of
`MemRow`.) -/
def upsertMemoryRecord (st : St) (memoryId sourceId : String) (latestVersion : Nat)
    (summaryAuto : Option String) (tagsAuto : List String)
    (effectiveTitle effectiveSummary : Option String) (effectiveTags : List String)
    (createdAt updatedAt : ℚ) (meta : MemMeta) : DbRes MemRow :=
  if (getSourceById st sourceId).isNone then
    (st, .error "FOREIGN KEY constraint failed")
  else
    match getMemoryById st memoryId with
    | some existing =>
      let row : MemRow :=
        { existing with
            sourceId := sourceId, latestVersion := latestVersion,
            summaryAuto := summaryAuto, tagsAuto := tagsAuto,
            effectiveTitle := effectiveTitle, effectiveSummary := effectiveSummary,
            effectiveTags := effectiveTags, updatedAt := updatedAt, meta := meta }
      ({ st with memories := st.memories.map (updRow memoryId row) }, .ok row)
    | none =>
      let row : MemRow :=
        { memoryId := memoryId, sourceId := sourceId, latestVersion := latestVersion,
          titleManual := none, notesManual := none,
          summaryAuto := summaryAuto, tagsAuto := tagsAuto,
          effectiveTitle := effectiveTitle, effectiveSummary := effectiveSummary,
          effectiveTags := effectiveTags, createdAt := createdAt,
          updatedAt := updatedAt, meta := meta }
      ({ st with memories := st.memories ++ [row] }, .ok row)

structure CatAssignment where
  categoryId : String
  confidence : Option ℚ
  reason : Option String
  deriving Repr, DecidableEq

/-- `assignMemoryCategory` / the pm_memory_categories upsert:
ON CONFLICT(memory_id, category_id, assignment_source) DO UPDATE confidence,
reason, updated_at.  Enforces both foreign keys. -/
def assignMemoryCategory (st : St) (memoryId categoryId assignmentSource : String)
    (confidence : Option ℚ) (reason : Option String) (assignedAt : ℚ) : DbRes Unit :=
  if (getMemoryById st memoryId).isNone || !(st.categories.contains categoryId) then
    (st, .error "FOREIGN KEY constraint failed")
  else if st.memCategories.any (fun c =>
      c.memoryId = memoryId && c.categoryId = categoryId && c.assignmentSource = assignmentSource) then
    let upd : CatRow → CatRow := fun c =>
      if c.memoryId = memoryId ∧ c.categoryId = categoryId ∧ c.assignmentSource = assignmentSource then
        { c with confidence := confidence, reason := reason, updatedAt := assignedAt }
      else c
    ({ st with memCategories := st.memCategories.map upd }, .ok ())
  else
    ({ st with memCategories := st.memCategories ++
        [{ memoryId := memoryId, categoryId := categoryId,
           assignmentSource := assignmentSource, confidence := confidence,
           reason := reason, createdAt := assignedAt, updatedAt := assignedAt }] },
     .ok ())

def assignLoop (memoryId assignmentSource : String) (assignedAt : ℚ) :
    St → List CatAssignment → DbRes Unit
  | st, [] => (st, .ok ())
  | st, a :: rest =>
    match assignMemoryCategory st memoryId a.categoryId assignmentSource
        a.confidence a.reason assignedAt with
    | (st', .ok ()) => assignLoop memoryId assignmentSource assignedAt st' rest
    | (st', .error e) => (st', .error e)

/-- `replaceMemoryCategoriesBySource`: inside one transaction, delete the
memory's rows under the given assignment source only, then insert the new
assignments; on any error the transaction rolls back to the entry state. -/
def replaceMemoryCategoriesBySource (st : St) (memoryId assignmentSource : String)
    (assignments : List CatAssignment) (assignedAt : ℚ) : DbRes Unit :=
  let st1 := { st with memCategories := (st.memCategories.filter
      (fun c => ¬(c.memoryId = memoryId ∧ c.assignmentSource = assignmentSource))) }
  match assignLoop memoryId assignmentSource assignedAt st1 assignments with
  | (st2, .ok ()) => (st2, .ok ())
  | (_, .error e) => (st, .error e)

/-- `upsertRelatedMemory`: ON CONFLICT(memory_id, related_memory_id,
relation_type) DO UPDATE confidence, reason, updated_at; both endpoints are
foreign keys into pm_memories. -/
def upsertRelatedMemory (st : St) (memoryId relatedMemoryId relationType : String)
    (confidence : Option ℚ) (reason : Option String) (linkedAt : ℚ) : DbRes Unit :=
  if (getMemoryById st memoryId).isNone || (getMemoryById st relatedMemoryId).isNone then
    (st, .error "FOREIGN KEY constraint failed")
  else if st.related.any (fun r =>
      r.memoryId = memoryId && r.relatedMemoryId = relatedMemoryId && r.relationType = relationType) then
    let upd : RelRow → RelRow := fun r =>
      if r.memoryId = memoryId ∧ r.relatedMemoryId = relatedMemoryId ∧ r.relationType = relationType then
        { r with confidence := confidence, reason := reason, updatedAt := linkedAt }
      else r
    ({ st with related := st.related.map upd }, .ok ())
  else
    ({ st with related := st.related ++
        [{ memoryId := memoryId, relatedMemoryId := relatedMemoryId,
           relationType := relationType, confidence := confidence,
           reason := reason, createdAt := linkedAt, updatedAt := linkedAt }] },
     .ok ())

/-- `deleteMemoryRecord`: one transaction removing the memory's category
assignments, related links (either direction), evidence, and the row itself. -/
def deleteMemoryRecord (st : St) (memoryId : String) : St :=
  { st with
      memCategories := st.memCategories.filter (fun c => ¬(c.memoryId = memoryId)),
      related := st.related.filter
        (fun r => ¬(r.memoryId = memoryId ∨ r.relatedMemoryId = memoryId)),
      evidence := st.evidence.filter (fun e => ¬(e.memoryId = memoryId)),
      memories := st.memories.filter (fun m => ¬(m.memoryId = memoryId)) }

structure EvidenceItem where
  startOffset : Option Nat
  endOffset : Option Nat
  evidenceText : Option String
  deriving Repr, DecidableEq

/-- `replaceMemoryEvidence`: transactionally delete the memory's evidence and
insert the new citation set (the memory_id foreign key holds on every call
site, the memory row having just been upserted; a violation would roll back to
the entry state like the categories transaction). -/
def replaceMemoryEvidence (st : St) (memoryId sourceId : String) (sourceVersion : Nat)
    (evidenceItems : List EvidenceItem) (createdAt : ℚ) : DbRes Unit :=
  if (getMemoryById st memoryId).isNone then
    (st, .error "FOREIGN KEY constraint failed")
  else
    ({ st with evidence :=
        st.evidence.filter (fun e => ¬(e.memoryId = memoryId)) ++
        evidenceItems.map (fun item =>
          { memoryId := memoryId, sourceId := sourceId, sourceVersion := sourceVersion,
            startOffset := item.startOffset, endOffset := item.endOffset,
            evidenceText := item.evidenceText, createdAt := createdAt }) },
     .ok ())

def startExtractionRun (st : St) (sourceId : String) (sourceVersion : Nat)
    (model : String) (startedAt : ℚ) : St × Nat :=
  let runId := st.nextRunId
  ({ st with
      runs := st.runs ++
        [{ runId := runId, sourceId := sourceId, sourceVersion := sourceVersion,
           model := model, status := "running", startedAt := startedAt,
           finishedAt := none, extractedCount := 0, errorText := none }],
      nextRunId := runId + 1 },
   runId)

/-- `finishExtractionRun`: UPDATE pm_extraction_runs SET status, finished_at,
extracted_count, error_text WHERE run_id = ?. -/
def finishExtractionRun (st : St) (runId : Nat) (status : String) (finishedAt : ℚ)
    (extractedCount : Nat) (errorText : Option String) : St :=
  { st with runs := st.runs.map (fun r =>
      if r.runId = runId then
        { r with status := status, finishedAt := some finishedAt,
                 extractedCount := extractedCount, errorText := errorText }
      else r) }

end MemorySvc

namespace MemorySvc

/-! ## Service layer (memoryService.js, extraction pipeline) -/

def EXTRACTOR_MODEL : String := "openai/gpt-5.1"

/-- JS truthiness of an optional string (`undefined` and `""` are falsy). -/
def optTruthy (o : Option String) : Bool :=
  (o.getD "") ≠ ""

def isExtractedAtomicMemory (m : MemRow) : Bool :=
  m.meta.memoryKind = "extracted_atomic_memory"

/-- One candidate fact returned by the Extractor collaborator
(`{kind, statement, title?, tags?, confidence?, evidenceText?}`). -/
structure Candidate where
  kind : String := ""
  statement : String := ""
  title : Option String := none
  tags : List String := []
  confidence : Option ℚ := none
  evidenceText : Option String := none
  deriving Repr, DecidableEq

/-- The per-candidate normalisations of `applyExtractedMemories`. -/
def candStatement (c : Candidate) : String :=
  normalizeSentence c.statement 600

def candKind (c : Candidate) : String :=
  trimStr (lowerStr c.kind)

/-- The filter of step 1: skip a candidate whose normalised statement is empty
or under 10 characters or whose kind is empty. -/
def candSurvives (c : Candidate) : Bool :=
  let statement := candStatement c
  let kind := candKind c
  ¬(statement = "" || statement.length < 10 || kind = "")

def candFingerprint (c : Candidate) : String :=
  extractionFingerprint (candKind c) (candStatement c)

def candMemoryId (sourceId : String) (c : Candidate) : String :=
  extractedMemoryId sourceId (candFingerprint c)

structure ApplyResult where
  source : SourceRow
  version : VersionRow
  extractedMemories : List MemRow
  extractedCount : Nat
  deriving Repr, DecidableEq

/-- The candidate loop of `applyExtractedMemories`: filter, fingerprint,
in-batch dedup, evidence-offset lookup, then the three writes (memory upsert,
extractor-scoped category replace, evidence replace) per surviving candidate.
`keep`/`persisted` are the accumulators `keepMemoryIds`/`persistedMemories`. -/
def applyExtractLoop (sourceId : String) (source : SourceRow) (version : VersionRow)
    (existingForSource : List MemRow) (now : ℚ) :
    St → List Candidate → List String → List MemRow →
    St × Except String (List String × List MemRow)
  | st, [], keep, persisted => (st, .ok (keep, persisted))
  | st, c :: rest, keep, persisted =>
    if ¬candSurvives c then
      applyExtractLoop sourceId source version existingForSource now st rest keep persisted
    else
      let statement := candStatement c
      let kind := candKind c
      let fingerprint := candFingerprint c
      let memoryId := candMemoryId sourceId c
      if keep.contains memoryId then
        applyExtractLoop sourceId source version existingForSource now st rest keep persisted
      else
        let keep' := keep ++ [memoryId]
        let markdown := version.contentMarkdown
        let citation := findCitationOffsets markdown (c.evidenceText.getD "") statement
        let tags := normalizeTagList c.tags
        let existing := existingForSource.find? (fun item => item.memoryId = memoryId)
        match upsertMemoryRecord st memoryId sourceId version.version
            (some statement) tags
            (if optTruthy c.title then some (sliceStr (c.title.getD "") 140) else none)
            (some statement) tags
            ((existing.map (·.createdAt)).getD now) now
            { memoryKind := "extracted_atomic_memory", extractedKind := kind,
              extractionFingerprint := fingerprint,
              extractionConfidence := c.confidence } with
        | (st1, .error e) => (st1, .error e)
        | (st1, .ok persistedRow) =>
          match replaceMemoryCategoriesBySource st1 memoryId "extractor_agent"
              [{ categoryId := categoryIdForBucket kind, confidence := c.confidence,
                 reason := some "extractor_agent_kind" }] now with
          | (st2, .error e) => (st2, .error e)
          | (st2, .ok ()) =>
            match replaceMemoryEvidence st2 memoryId sourceId version.version
                [{ startOffset := citation.1, endOffset := citation.2,
                   evidenceText := some (if optTruthy c.evidenceText then
                     normalizeSentence (c.evidenceText.getD "") 400 else statement) }] now with
            | (st3, .error e) => (st3, .error e)
            | (st3, .ok ()) =>
              applyExtractLoop sourceId source version existingForSource now st3 rest
                keep' (persisted ++ [persistedRow])

/-- Step 6 of `applyExtractedMemories`: delete every other existing
extracted-atomic-memory row of this source whose memoryId was not produced in
this pass. -/
def pruneStale (sourceId : String) (keep : List String) :
    St → List MemRow → St
  | st, [] => st
  | st, e :: rest =>
    if e.memoryId = sourceId then pruneStale sourceId keep st rest
    else if isExtractedAtomicMemory e ∧ ¬(keep.contains e.memoryId) then
      pruneStale sourceId keep (deleteMemoryRecord st e.memoryId) rest
    else pruneStale sourceId keep st rest

/-- `applyExtractedMemories` from memoryService.js. -/
def applyExtractedMemories (st : St) (sourceId : String) (sourceVersion : Option Nat)
    (extractedMemories : List Candidate) (allowEmpty : Bool) (now : ℚ) :
    St × Except String ApplyResult :=
  match getSourceById st sourceId with
  | none => (st, .error ("Unknown source_id: " ++ sourceId))
  | some source =>
    match (match sourceVersion with
           | none => getLatestVersion st sourceId
           | some v => getSourceVersion st sourceId v) with
    | none => (st, .error ("Source version not found for source_id=" ++ sourceId))
    | some version =>
      let existingForSource := listMemoryRecordsBySource st sourceId
      match applyExtractLoop sourceId source version existingForSource now
          st extractedMemories [] [] with
      | (st1, .error e) => (st1, .error e)
      | (st1, .ok (keep, persisted)) =>
        if ¬allowEmpty ∧ persisted = [] then
          (st1, .error "Extractor produced zero atomic memories; refusing to erase existing memories.")
        else
          let st2 := pruneStale sourceId keep st1 existingForSource
          let st3 := deleteMemoryRecord st2 sourceId
          (st3, .ok { source := source, version := version,
                      extractedMemories := persisted,
                      extractedCount := persisted.length })

/-! ## Ingestion entrypoint -/

structure IngestPayload where
  filename : String := ""
  markdown : String := ""
  sourcePath : String := ""
  externalSourceId : String := ""
  agentfsUri : Option String := none
  deriving Repr, DecidableEq

structure ExtractInput where
  sourceId : String
  sourceFilename : String
  sourceVersion : Nat
  markdown : String
  deriving Repr, DecidableEq

/-- The Extractor collaborator (`extractAtomicMemoriesViaAgent`): returns the
candidate list or throws (module unavailable, invalid response shape, model
failure). -/
def Extractor : Type :=
  ExtractInput → Except String (List Candidate)

structure IngestResult where
  source : SourceRow
  memory : Option MemRow
  extractedMemories : List MemRow
  extractedCount : Nat
  extractionRunId : Option Nat
  version : Option VersionRow
  changed : Bool
  extractionSkipped : Bool := false
  deriving Repr, DecidableEq

def collapseRunsAux (p : Char → Bool) (out : Char) : List Char → Bool → List Char
  | [], _ => []
  | c :: rest, prev =>
    if p c then
      if prev then collapseRunsAux p out rest true
      else out :: collapseRunsAux p out rest true
    else c :: collapseRunsAux p out rest false

/-- `filename.trim().replace(/\\/g, "/").replace(/\/+/g, "/").toLowerCase()`. -/
def normalizeIngestFilename (filename : String) : String :=
  lowerStr (String.mk (collapseRunsAux (fun c => c = '/') '/'
    ((trimStr filename).data.map (fun c => if c = '\\' then '/' else c)) false))

/-- `markdown.replace(/\r\n/g, "\n")`. -/
def stripCrLf : List Char → List Char
  | [] => []
  | '\r' :: '\n' :: rest => '\n' :: stripCrLf rest
  | c :: rest => c :: stripCrLf rest

/-- `.replace(/\n{3,}/g, "\n\n")`. -/
def collapseNl : List Char → List Char
  | [] => []
  | c :: rest =>
    if c = '\n' then
      let run := rest.takeWhile (fun d => d = '\n')
      (if 2 ≤ run.length then ['\n', '\n'] else c :: run) ++
        collapseNl (rest.dropWhile (fun d => d = '\n'))
    else c :: collapseNl rest
  termination_by s => s.length
  decreasing_by
    · simpa using Nat.lt_succ_of_le
        (List.Sublist.length_le (List.dropWhile_sublist (p := fun d => d = '\n')))
    · simp

/-- The fuzzy (whitespace/case-insensitive) normalisation of the markdown. -/
def fuzzyNormalize (strictMarkdown : String) : String :=
  trimStr (String.mk (collapseNl
    (collapseRunsAux (fun c => c = '\t' || c = ' ') ' ' (lowerStr strictMarkdown).data false)))

/-- `path.basename` (modulo degenerate all-slash inputs). -/
def basenameStr (s : String) : String :=
  String.mk (((s.data.reverse.dropWhile (fun c => c = '/')).takeWhile (fun c => ¬(c = '/'))).reverse)

/-- The try-block of `ingestProcessedMarkdown` (steps 3–4 of the orchestrator
state machine): call the Extractor and persist its candidates with
`allowEmpty = false`. -/
def ingestTryBlock (st : St) (extractor : Extractor) (sourceId : String)
    (sourceFilename : String) (versionNumber : Nat) (strictMarkdown : String)
    (now : ℚ) : St × Except String ApplyResult :=
  match extractor { sourceId := sourceId, sourceFilename := sourceFilename,
                    sourceVersion := versionNumber, markdown := strictMarkdown } with
  | .error e => (st, .error e)
  | .ok extracted =>
    applyExtractedMemories st sourceId (some versionNumber) extracted false now

/-- `ingestProcessedMarkdown` from memoryService.js. -/
def ingestProcessedMarkdown (st : St) (extractor : Extractor) (p : IngestPayload)
    (now : ℚ) : St × Except String IngestResult :=
  let normalizedFilename := normalizeIngestFilename p.filename
  let info := buildSourceId normalizedFilename p.externalSourceId
  if normalizedFilename = "" ∧ info.normalizedExternalSourceId = "" then
    (st, .error "Missing filename or externalSourceId")
  else
    let strictMarkdown := String.mk (stripCrLf p.markdown.data)
    if trimStr strictMarkdown = "" then
      (st, .error "Missing markdown")
    else
      let checksum := sha256hex strictMarkdown
      let fuzzyHash := sha256hex (fuzzyNormalize strictMarkdown)
      let sourceFilename :=
        if normalizedFilename ≠ "" then basenameStr normalizedFilename
        else info.normalizedExternalSourceId
      let sourcePath :=
        if p.sourcePath ≠ "" then some p.sourcePath
        else if normalizedFilename ≠ "" then some normalizedFilename
        else none
      let (st1, source) :=
        upsertSource st info.sourceId sourceFilename sourcePath "markdown" checksum now
      match createVersionIfChanged st1 info.sourceId checksum fuzzyHash strictMarkdown
          p.agentfsUri strictMarkdown.utf8ByteSize now with
      | (st2, .error e) => (st2, .error e)
      | (st2, .ok versionResult) =>
        let existingForSource := listMemoryRecordsBySource st2 info.sourceId
        let existingExtracted := existingForSource.filter isExtractedAtomicMemory
        let hasLegacyDocumentMemory :=
          existingForSource.any (fun row => row.memoryId = info.sourceId)
        if versionResult.changed = false ∧ existingExtracted ≠ [] ∧
            ¬hasLegacyDocumentMemory then
          (st2, .ok { source := source, memory := existingExtracted.head?,
                      extractedMemories := existingExtracted,
                      extractedCount := existingExtracted.length,
                      extractionRunId := none, version := versionResult.row,
                      changed := versionResult.changed, extractionSkipped := true })
        else
          let (st3, runId) :=
            startExtractionRun st2 info.sourceId versionResult.version EXTRACTOR_MODEL now
          match ingestTryBlock st3 extractor info.sourceId source.sourceFilename
              versionResult.version strictMarkdown now with
          | (st4, .ok extraction) =>
            let st5 := finishExtractionRun st4 runId "success" now extraction.extractedCount none
            (st5, .ok { source := source,
                        memory := extraction.extractedMemories.head?,
                        extractedMemories := extraction.extractedMemories,
                        extractedCount := extraction.extractedCount,
                        extractionRunId := some runId, version := versionResult.row,
                        changed := versionResult.changed, extractionSkipped := false })
          | (st4, .error e) =>
            let st5 := finishExtractionRun st4 runId "failed" now 0 (some e)
            (st5, .error e)

/-! ## Relationship & consolidation store (applyOrganizerDecisions) -/

structure OrgAssignment where
  memoryId : String := ""
  categoryId : Option String := none
  bucket : Option String := none
  confidence : Option ℚ := none
  reason : Option String := none
  deriving Repr, DecidableEq

structure OrgLink where
  memoryId : String := ""
  relatedMemoryId : String := ""
  confidence : Option ℚ := none
  reason : Option String := none
  deriving Repr, DecidableEq

/-- The category id an organizer assignment resolves to:
`String(assignment?.categoryId || "").trim() || categoryIdForBucket(bucket)`. -/
def orgCategoryId (a : OrgAssignment) : String :=
  let cid := trimStr (a.categoryId.getD "")
  if cid ≠ "" then cid else categoryIdForBucket (a.bucket.getD "")

def organizerCatLoop (assignmentSource : String) (appliedAt : ℚ) :
    St → List OrgAssignment → Nat → St × Except String Nat
  | st, [], n => (st, .ok n)
  | st, a :: rest, n =>
    let memoryId := trimStr a.memoryId
    if memoryId = "" then organizerCatLoop assignmentSource appliedAt st rest n
    else
      match replaceMemoryCategoriesBySource st memoryId assignmentSource
          [{ categoryId := orgCategoryId a, confidence := a.confidence,
             reason := if optTruthy a.reason then some (a.reason.getD "") else none }]
          appliedAt with
      | (st', .ok ()) => organizerCatLoop assignmentSource appliedAt st' rest (n + 1)
      | (st', .error e) => (st', .error e)

def organizerLinkLoop (relationType : String) (appliedAt : ℚ) :
    St → List OrgLink → Nat → St × Except String Nat
  | st, [], n => (st, .ok n)
  | st, l :: rest, n =>
    let leftId := trimStr l.memoryId
    let rightId := trimStr l.relatedMemoryId
    if leftId = "" ∨ rightId = "" ∨ leftId = rightId then
      organizerLinkLoop relationType appliedAt st rest n
    else
      let confidence := l.confidence
      let reason := if optTruthy l.reason then some (l.reason.getD "") else none
      match upsertRelatedMemory st leftId rightId relationType confidence reason appliedAt with
      | (st1, .error e) => (st1, .error e)
      | (st1, .ok ()) =>
        match upsertRelatedMemory st1 rightId leftId relationType confidence reason appliedAt with
        | (st2, .error e) => (st2, .error e)
        | (st2, .ok ()) => organizerLinkLoop relationType appliedAt st2 rest (n + 2)

/-- `applyOrganizerDecisions` from memoryService.js; returns
`(appliedCategoryCount, appliedRelationCount)`. -/
def applyOrganizerDecisions (st : St) (categoryAssignments : List OrgAssignment)
    (relatedLinks : List OrgLink) (assignmentSource : String := "organizer_agent")
    (relationType : String := "related") (now : ℚ := 0) :
    St × Except String (Nat × Nat) :=
  match organizerCatLoop assignmentSource now st categoryAssignments 0 with
  | (st1, .error e) => (st1, .error e)
  | (st1, .ok nc) =>
    match organizerLinkLoop relationType now st1 relatedLinks 0 with
    | (st2, .error e) => (st2, .error e)
    | (st2, .ok nr) => (st2, .ok (nc, nr))

end MemorySvc

namespace MemorySvc

/-! ## Retrieval engine (searchMemories and the embedding helpers) -/

def isAlnumLower (c : Char) : Bool :=
  ('a' ≤ c && c ≤ 'z') || ('0' ≤ c && c ≤ '9')

/-- `.split(/\s+/).filter(Boolean)`: the maximal non-whitespace runs. -/
def splitWsAux : List Char → List Char → List String
  | [], acc => if acc.isEmpty then [] else [String.mk acc.reverse]
  | c :: rest, acc =>
    if isWsChar c then
      if acc.isEmpty then splitWsAux rest []
      else String.mk acc.reverse :: splitWsAux rest []
    else splitWsAux rest (c :: acc)

/-- `tokenize` from memoryService.js: lowercase, replace `[^a-z0-9\s]` with a
space, split on whitespace, drop empties. -/
def jsTokenize (text : String) : List String :=
  splitWsAux
    ((lowerStr text).data.map (fun c => if isAlnumLower c || isWsChar c then c else ' '))
    []

/-- A note row of the `notes` table (mapRow shape).  `summary` is modelled as
the string that the template literals interpolate. -/
structure Note where
  id : String
  content : String := ""
  sourceType : String := "text"
  sourceUrl : Option String := none
  imagePath : Option String := none
  summary : String := ""
  tags : List String := []
  project : Option String := none
  createdAt : ℚ := 0
  updatedAt : ℚ := 0
  embedding : Option (List ℝ) := none

/-- `lexicalScore` from memoryService.js: the fraction of query tokens present
in the bag of the note's tokenized text fields. -/
def lexicalScore (note : Note) (queryTokens : List String) : ℚ :=
  if queryTokens.length = 0 then 0
  else
    let noteTokens := jsTokenize (note.content ++ " " ++ note.summary ++ " " ++
      String.intercalate " " note.tags ++ " " ++ note.project.getD "")
    (queryTokens.countP (fun t => noteTokens.contains t) : ℚ) / queryTokens.length

/-- The two 32-bit words `hash.readUInt32BE(0)` / `hash.readUInt32BE(4)` of a
token's SHA-256 digest.  Theorems about the pseudo-embedding quantify over an
arbitrary digest function, so they hold for the real SHA-256 in particular. -/
def Digest : Type := String → Nat × Nat

/-- One token's bucket accumulation: `vector[a] += 1; vector[b] += 0.5`. -/
noncomputable def bumpToken (digest : Digest) (dims : Nat) (v : List ℝ) (token : String) :
    List ℝ :=
  let a := (digest token).1 % dims
  let b := (digest token).2 % dims
  let v1 := v.set a (v.getD a 0 + 1)
  v1.set b (v1.getD b 0 + 0.5)

/-- The bucket accumulation loop of `pseudoEmbedding` (before normalisation). -/
noncomputable def pseudoEmbeddingRaw (digest : Digest) (input : String) (dims : Nat) :
    List ℝ :=
  (jsTokenize input).foldl (bumpToken digest dims) (List.replicate dims (0 : ℝ))

/-- `normalizeVector` from the embedding helpers (`norm` inlined). -/
noncomputable def normalizeVector (v : List ℝ) : List ℝ :=
  if Real.sqrt ((v.map (fun n => n * n)).sum) = 0 then v
  else v.map (fun n => n / Real.sqrt ((v.map (fun n => n * n)).sum))

/-- `pseudoEmbedding`: per-token SHA-256 hash buckets, then normalisation. -/
noncomputable def pseudoEmbedding (digest : Digest) (input : String)
    (dims : Nat := 256) : List ℝ :=
  normalizeVector (pseudoEmbeddingRaw digest input dims)

/-- A JavaScript value reaching `cosineSimilarity`: an array whose entries are
numbers (modelled exactly) or non-numbers (`Number(x) || 0` coerces both a
non-numeric entry's NaN and falsy values to 0), or a non-array value. -/
inductive JsVec where
  | arr (entries : List (Option ℝ))
  | nonArray

/-- `Number(a[i]) || 0`. -/
def entryNum : Option ℝ → ℝ
  | none => 0
  | some x => x

/-- `cosineSimilarity` from the embedding helpers. -/
noncomputable def cosineSimilarity (a b : JsVec) : ℝ :=
  match a, b with
  | .arr xs, .arr ys =>
    if xs.length ≠ ys.length then 0
    else
      let dot := ((xs.zip ys).map (fun p => entryNum p.1 * entryNum p.2)).sum
      let magA := (xs.map (fun x => entryNum x * entryNum x)).sum
      let magB := (ys.map (fun y => entryNum y * entryNum y)).sum
      if magA = 0 ∨ magB = 0 then 0
      else dot / Real.sqrt (magA * magB)
  | _, _ => 0

/-- `clampInt` from memoryService.js (the NaN fallback arm is unreachable in
the model, whose numbers are always finite; Math.floor is the identity on the
modelled integer limits). -/
def clampInt (value lo hi fallback : Int) : Int :=
  min hi (max lo value)

/-- `listByProject` of the note repository: optional project filter, ordered
by created_at descending, limit clamped to [1, 500]. -/
def listByProject (notes : List Note) (project : Option String) (limit : Int) :
    List Note :=
  let bounded := (min 500 (max 1 limit)).toNat
  (sortByQDesc (·.createdAt)
    (notes.filter (fun n =>
      match project with
      | none => true
      | some p => n.project = some p))).take bounded

structure NoteSnapshot where
  id : String
  content : String
  sourceType : String
  sourceUrl : Option String
  imagePath : Option String
  summary : String
  tags : List String
  project : Option String
  createdAt : ℚ
  updatedAt : ℚ

structure Citation where
  rank : Nat
  score : ℝ
  note : NoteSnapshot

/-- `materializeCitation` from memoryService.js. -/
def materializeCitation (note : Note) (score : ℝ) (rank : Nat) : Citation :=
  { rank := rank, score := score,
    note := { id := note.id, content := note.content, sourceType := note.sourceType,
              sourceUrl := note.sourceUrl, imagePath := note.imagePath,
              summary := note.summary, tags := note.tags, project := note.project,
              createdAt := note.createdAt, updatedAt := note.updatedAt } }

/-- The note-side embedding: the stored vector when present, otherwise the
pseudo-embedding of the note's own text. -/
noncomputable def noteEmbeddingOf (digest : Digest) (note : Note) : List ℝ :=
  match note.embedding with
  | some v => v
  | none => pseudoEmbedding digest (note.content ++ "\n" ++ note.summary)

/-- `Math.max(0, 1 - age / 30days) * 0.05` (times in epoch milliseconds). -/
def freshnessBoost (now createdAt : ℚ) : ℚ :=
  max 0 (1 - (now - createdAt) / (1000 * 60 * 60 * 24 * 30)) * (5 / 100)

/-- The ranking score of one candidate note:
`semantic * 0.82 + lexical * 0.13 + freshnessBoost`. -/
noncomputable def noteScore (digest : Digest) (queryEmbedding : List ℝ)
    (queryTokens : List String) (now : ℚ) (note : Note) : ℝ :=
  cosineSimilarity (.arr (queryEmbedding.map some))
      (.arr ((noteEmbeddingOf digest note).map some)) * (82 / 100) +
    (lexicalScore note queryTokens : ℝ) * (13 / 100) +
    (freshnessBoost now note.createdAt : ℝ)

/-- `searchMemories` from memoryService.js.  `embedQuery` is the resolved
query-embedding collaborator (`createEmbedding` with its pseudo-embedding
fallback); `notes` is the notes table. -/
noncomputable def searchMemories (notes : List Note) (query project : String)
    (limit : Int) (now : ℚ) (embedQuery : String → List ℝ) (digest : Digest) :
    List Citation :=
  let boundedLimit := (clampInt limit 1 100 15).toNat
  let normalizedQuery := trimStr query
  let normalizedProject := trimStr project
  let projectFilter := if normalizedProject ≠ "" then some normalizedProject else none
  if normalizedQuery = "" then
    (listByProject notes projectFilter boundedLimit).mapIdx
      (fun index note => materializeCitation note (1 - index * (1 / 1000) : ℝ) (index + 1))
  else
    let ns := listByProject notes projectFilter 500
    if ns.isEmpty then []
    else
      let queryTokens := jsTokenize normalizedQuery
      let queryEmbedding := embedQuery normalizedQuery
      let ranked := ns.map (fun note =>
        (note, noteScore digest queryEmbedding queryTokens now note))
      let sorted := ranked.mergeSort (fun x y => decide (y.2 ≤ x.2))
      (sorted.take boundedLimit).mapIdx
        (fun index item => materializeCitation item.1 item.2 (index + 1))

end MemorySvc

namespace MemorySvc

/-! ## Facts about the version store -/

theorem pickLater_isSome (acc : Option VersionRow) (v : VersionRow) :
    (pickLater acc v).isSome := by
  cases acc with
  | none => rfl
  | some b =>
    simp only [pickLater]
    split <;> rfl

theorem foldl_pickLater_isSome (l : List VersionRow) (acc : Option VersionRow)
    (h : acc.isSome) : (l.foldl pickLater acc).isSome := by
  induction l generalizing acc with
  | nil => exact h
  | cons v rest ih => exact ih _ (pickLater_isSome acc v)

theorem foldl_pickLater_mem (l : List VersionRow) :
    ∀ acc r, l.foldl pickLater acc = some r → acc = some r ∨ r ∈ l := by
  induction l with
  | nil => exact fun acc r h => Or.inl h
  | cons v rest ih =>
    intro acc r h
    simp only [List.foldl_cons] at h
    rcases ih (pickLater acc v) r h with h' | h'
    · cases acc with
      | none =>
        refine Or.inr ?_
        rw [← Option.some_inj.1 h']
        exact List.mem_cons_self v rest
      | some b =>
        simp only [pickLater] at h'
        split at h'
        · refine Or.inr ?_
          rw [← Option.some_inj.1 h']
          exact List.mem_cons_self v rest
        · exact Or.inl h'
    · exact Or.inr (List.mem_cons_of_mem v h')

theorem pickLater_le (acc : Option VersionRow) (v : VersionRow) :
    ∃ w, pickLater acc v = some w ∧ v.version ≤ w.version ∧
      ∀ b, acc = some b → b.version ≤ w.version := by
  cases acc with
  | none => exact ⟨v, rfl, le_refl _, by simp⟩
  | some b =>
    by_cases hb : b.version < v.version
    · refine ⟨v, by simp [pickLater, hb], le_refl _, ?_⟩
      intro b' hb'
      rw [← Option.some_inj.1 hb']
      exact Nat.le_of_lt hb
    · refine ⟨b, by simp [pickLater, hb], Nat.le_of_not_lt hb, ?_⟩
      intro b' hb'
      rw [← Option.some_inj.1 hb']

theorem foldl_pickLater_le (l : List VersionRow) :
    ∀ acc r, l.foldl pickLater acc = some r →
      (∀ b, acc = some b → b.version ≤ r.version) ∧
      (∀ w ∈ l, w.version ≤ r.version) := by
  induction l with
  | nil =>
    intro acc r h
    simp only [List.foldl_nil] at h
    refine ⟨fun b hb => ?_, by simp⟩
    rw [hb] at h
    rw [Option.some_inj.1 h]
  | cons v rest ih =>
    intro acc r h
    simp only [List.foldl_cons] at h
    obtain ⟨w, hw, hvw, hacc⟩ := pickLater_le acc v
    obtain ⟨h1, h2⟩ := ih (pickLater acc v) r h
    have hwr : w.version ≤ r.version := h1 w hw
    refine ⟨fun b hb => le_trans (hacc b hb) hwr, ?_⟩
    intro x hx
    rcases List.mem_cons.1 hx with rfl | hx'
    · exact le_trans hvw hwr
    · exact h2 x hx'

end MemorySvc

namespace MemorySvc

theorem getLatestVersion_mem (st : St) (sid : String) (latest : VersionRow)
    (h : getLatestVersion st sid = some latest) :
    latest ∈ st.versions ∧ latest.sourceId = sid := by
  unfold getLatestVersion at h
  rcases foldl_pickLater_mem _ none latest h with h' | h'
  · exact absurd h' (by simp)
  · have := List.mem_filter.1 h'
    exact ⟨this.1, by simpa using this.2⟩

theorem getLatestVersion_max (st : St) (sid : String) (latest : VersionRow)
    (h : getLatestVersion st sid = some latest) :
    ∀ w ∈ st.versions, w.sourceId = sid → w.version ≤ latest.version := by
  intro w hw hsid
  exact (foldl_pickLater_le _ none latest h).2 w (List.mem_filter.2 ⟨hw, by simp [hsid]⟩)

theorem getLatestVersion_none (st : St) (sid : String)
    (h : getLatestVersion st sid = none) :
    ∀ w ∈ st.versions, ¬(w.sourceId = sid) := by
  intro w hw hsid
  unfold getLatestVersion at h
  cases hfl : st.versions.filter (fun v => v.sourceId = sid) with
  | nil =>
    have : w ∈ st.versions.filter (fun v => v.sourceId = sid) :=
      List.mem_filter.2 ⟨hw, by simp [hsid]⟩
    rw [hfl] at this
    exact absurd this (List.not_mem_nil w)
  | cons a rest =>
    rw [hfl] at h
    simp only [List.foldl_cons] at h
    have hs := foldl_pickLater_isSome rest (pickLater none a) (pickLater_isSome none a)
    rw [h] at hs
    exact absurd hs (by simp)

theorem getLatestVersion_append (st : St) (sid : String) (v : VersionRow)
    (hv : v.sourceId = sid)
    (hgt : ∀ w ∈ st.versions, w.sourceId = sid → w.version < v.version) :
    getLatestVersion { st with versions := st.versions ++ [v] } sid = some v := by
  unfold getLatestVersion
  simp only [List.filter_append, List.foldl_append]
  have hfv : List.filter (fun w => decide (w.sourceId = sid)) [v] = [v] := by simp [hv]
  rw [hfv]
  simp only [List.foldl_cons, List.foldl_nil]
  cases hacc : (st.versions.filter (fun w => decide (w.sourceId = sid))).foldl pickLater none with
  | none => rfl
  | some b =>
    have hb : b ∈ st.versions ∧ b.sourceId = sid :=
      getLatestVersion_mem st sid b (by unfold getLatestVersion; exact hacc)
    have := hgt b hb.1 hb.2
    simp [pickLater, this]

end MemorySvc

namespace MemorySvc

/-- C3 (amended): `createVersionIfChanged` returns `{changed: false, version:
latest}` without writing when the incoming checksum equals the latest
version's checksum; when the checksum differs from the latest version's
checksum *and from every older version's checksum for that source*, it inserts
a new version row with `version = latest.version + 1` (or 1 when no version
exists) and returns `{changed: true, version: new}`.  (When the incoming
checksum instead equals an older version's checksum, the insert violates the
schema's UNIQUE(source_id, checksum) constraint and the call throws — see the
counterexample.) -/
theorem claim_C3 (st : St) (sourceId checksum fuzzyHash contentMarkdown : String)
    (agentfsUri : Option String) (contentBytes : Nat) (createdAt : ℚ)
    (hsrc : (getSourceById st sourceId).isSome = true) :
    (∀ latest, getLatestVersion st sourceId = some latest →
      (latest.checksum = checksum →
        createVersionIfChanged st sourceId checksum fuzzyHash contentMarkdown
            agentfsUri contentBytes createdAt
          = (st, .ok { changed := false, version := latest.version, row := some latest })) ∧
      (latest.checksum ≠ checksum →
        (∀ w ∈ st.versions, w.sourceId = sourceId → w.checksum ≠ checksum) →
        createVersionIfChanged st sourceId checksum fuzzyHash contentMarkdown
            agentfsUri contentBytes createdAt
          = ({ st with versions := st.versions ++
                [{ sourceId := sourceId, version := latest.version + 1,
                   checksum := checksum, fuzzyHash := fuzzyHash,
                   contentMarkdown := contentMarkdown, agentfsUri := agentfsUri,
                   contentBytes := contentBytes, createdAt := createdAt }] },
             .ok { changed := true, version := latest.version + 1,
                   row := some { sourceId := sourceId, version := latest.version + 1,
                                 checksum := checksum, fuzzyHash := fuzzyHash,
                                 contentMarkdown := contentMarkdown,
                                 agentfsUri := agentfsUri,
                                 contentBytes := contentBytes, createdAt := createdAt } }))) ∧
    (getLatestVersion st sourceId = none →
      createVersionIfChanged st sourceId checksum fuzzyHash contentMarkdown
          agentfsUri contentBytes createdAt
        = ({ st with versions := st.versions ++
              [{ sourceId := sourceId, version := 1, checksum := checksum,
                 fuzzyHash := fuzzyHash, contentMarkdown := contentMarkdown,
                 agentfsUri := agentfsUri, contentBytes := contentBytes,
                 createdAt := createdAt }] },
           .ok { changed := true, version := 1,
                 row := some { sourceId := sourceId, version := 1, checksum := checksum,
                               fuzzyHash := fuzzyHash, contentMarkdown := contentMarkdown,
                               agentfsUri := agentfsUri, contentBytes := contentBytes,
                               createdAt := createdAt } })) := by
  constructor
  · intro latest hlatest
    constructor
    · intro hck
      unfold createVersionIfChanged
      rw [hlatest]
      simp [hck]
    · intro hck hfresh
      unfold createVersionIfChanged
      rw [hlatest]
      have hckneq : ¬(latest.checksum = checksum) := hck
      simp only [hckneq, if_neg, ite_false]
      unfold insertVersion
      have h1 : (getSourceById st sourceId).isNone = false := by
        cases hoc : getSourceById st sourceId with
        | none => rw [hoc] at hsrc; exact absurd hsrc (by simp)
        | some s => simp
      have h2 : (st.versions.any (fun w =>
          w.sourceId = sourceId && w.version == latest.version + 1)) = false := by
        rw [List.any_eq_false]
        intro w hw
        simp only [Bool.and_eq_true, decide_eq_true_eq, beq_iff_eq, not_and]
        intro hsid hver
        have := getLatestVersion_max st sourceId latest hlatest w hw hsid
        omega
      have h3 : (st.versions.any (fun w =>
          w.sourceId = sourceId && w.checksum == checksum)) = false := by
        rw [List.any_eq_false]
        intro w hw
        simp only [Bool.and_eq_true, decide_eq_true_eq, beq_iff_eq, not_and]
        exact fun hsid => hfresh w hw hsid
      rw [h1, h2, h3]
      simp only [Bool.false_eq_true, if_false]
      have happ := getLatestVersion_append st sourceId
        { sourceId := sourceId, version := latest.version + 1, checksum := checksum,
          fuzzyHash := fuzzyHash, contentMarkdown := contentMarkdown,
          agentfsUri := agentfsUri, contentBytes := contentBytes, createdAt := createdAt }
        rfl
        (by
          intro w hw hsid
          have := getLatestVersion_max st sourceId latest hlatest w hw hsid
          show w.version < latest.version + 1
          omega)
      simp only [happ]
  · intro hnone
    unfold createVersionIfChanged
    rw [hnone]
    unfold insertVersion
    have h1 : (getSourceById st sourceId).isNone = false := by
      cases hoc : getSourceById st sourceId with
      | none => rw [hoc] at hsrc; exact absurd hsrc (by simp)
      | some s => simp
    have hnosid := getLatestVersion_none st sourceId hnone
    have h2 : (st.versions.any (fun w =>
        w.sourceId = sourceId && w.version == 1)) = false := by
      rw [List.any_eq_false]
      intro w hw
      simp only [Bool.and_eq_true, decide_eq_true_eq, beq_iff_eq, not_and]
      exact fun hsid => absurd hsid (hnosid w hw)
    have h3 : (st.versions.any (fun w =>
        w.sourceId = sourceId && w.checksum == checksum)) = false := by
      rw [List.any_eq_false]
      intro w hw
      simp only [Bool.and_eq_true, decide_eq_true_eq, beq_iff_eq, not_and]
      exact fun hsid => absurd hsid (hnosid w hw)
    rw [h1, h2, h3]
    simp only [Bool.false_eq_true, if_false]
    have happ := getLatestVersion_append st sourceId
      { sourceId := sourceId, version := 1, checksum := checksum,
        fuzzyHash := fuzzyHash, contentMarkdown := contentMarkdown,
        agentfsUri := agentfsUri, contentBytes := contentBytes, createdAt := createdAt }
      rfl
      (by
        intro w hw hsid
        exact absurd hsid (hnosid w hw))
    simp only [happ]

end MemorySvc

namespace MemorySvc

/-- A store holding one source `"s"` with two versions whose checksums are
`"a"` (version 1) and `"b"` (version 2, the latest). -/
def c3State : St :=
  { sources := [{ sourceId := "s", sourceFilename := "s.md", sourcePath := none,
                  sourceKind := "markdown", isDeleted := false, firstSeenAt := 0,
                  lastSeenAt := 0, lastChecksum := some "b" }],
    versions :=
      [{ sourceId := "s", version := 1, checksum := "a", fuzzyHash := "fa",
         contentMarkdown := "A", agentfsUri := none, contentBytes := 1, createdAt := 0 },
       { sourceId := "s", version := 2, checksum := "b", fuzzyHash := "fb",
         contentMarkdown := "B", agentfsUri := none, contentBytes := 1, createdAt := 1 }] }

/-- C3 counterexample: with latest checksum `"b"`, re-ingesting content whose
checksum `"a"` matches the *older* version 1 does not insert a version 3 row
and return `{changed: true}` as the claim states — the UNIQUE(source_id,
checksum) constraint fires and `createVersionIfChanged` throws, leaving the
store unchanged. -/
theorem claim_C3_counterexample :
    ((getLatestVersion c3State "s").map (fun v => v.checksum) = some "b") ∧
    (∃ w ∈ c3State.versions, w.sourceId = "s" ∧ w.checksum = "a" ∧ w.version = 1) ∧
    createVersionIfChanged c3State "s" "a" "fa2" "A" none 1 2
      = (c3State,
         .error "UNIQUE constraint failed: pm_source_versions.source_id, pm_source_versions.checksum") := by
  refine ⟨by decide, ⟨?_, ?_⟩⟩
  · exact ⟨c3State.versions.head (by decide), by decide⟩
  · rfl

/-- A store holding one source `"s"` and no versions yet. -/
def c3WitnessState : St :=
  { sources := [{ sourceId := "s", sourceFilename := "s.md", sourcePath := none,
                  sourceKind := "markdown", isDeleted := false, firstSeenAt := 0,
                  lastSeenAt := 0, lastChecksum := none }] }

/-- C3 witness: on a source with no versions, `createVersionIfChanged` inserts
version 1 and reports `{changed: true, version: 1}`. -/
theorem claim_C3_witness :
    (getSourceById c3WitnessState "s").isSome = true ∧
    (createVersionIfChanged c3WitnessState "s" "ck" "fz" "MD" none 2 0).2
      = .ok { changed := true, version := 1,
              row := some { sourceId := "s", version := 1, checksum := "ck",
                            fuzzyHash := "fz", contentMarkdown := "MD",
                            agentfsUri := none, contentBytes := 2, createdAt := 0 } } := by
  refine ⟨by decide, ?_⟩
  have h := (claim_C3 c3WitnessState "s" "ck" "fz" "MD" none 2 0 (by decide)).2 (by decide)
  rw [h]

end MemorySvc

namespace MemorySvc

theorem strAppend_left_cancel {a b c : String} (h : a ++ b = a ++ c) : b = c := by
  have hd := congrArg String.data h
  simp only [String.data_append] at hd
  exact String.ext (List.append_cancel_left hd)

/-- The string fed to the fingerprint hash for a candidate:
lowercased kind, a `"|"` separator, and the lowercased 500-truncation of the
already 600-normalised statement. -/
def candStable (c : Candidate) : String :=
  lowerStr (candKind c) ++ "|" ++ lowerStr (normalizeSentence (candStatement c) 500)

/-- C5 (amended): for a fixed source, two candidates resolve to the same
memoryId exactly when their fingerprint preimages coincide — the lowercased,
trimmed kind joined by `"|"` with the whitespace-collapsed, truncated (600
then 500 characters) and *lowercased* statement.  In particular candidates
with equal `(kind, statement)` after that normalisation always share a
memoryId regardless of differing title, tags, confidence or evidenceText,
while statements differing only in letter case (or only beyond the truncation
limit) also collide — they do not yield a different memoryId, contrary to the
original claim (see the counterexample). -/
theorem claim_C5 (sourceId : String) (c1 c2 : Candidate) :
    candMemoryId sourceId c1 = candMemoryId sourceId c2 ↔
      candStable c1 = candStable c2 := by
  constructor
  · intro h
    unfold candMemoryId extractedMemoryId at h
    have h1 := strAppend_left_cancel (sha256hex_inj h)
    unfold candFingerprint extractionFingerprint at h1
    exact sha256hex_inj h1
  · intro h
    unfold candMemoryId extractedMemoryId candFingerprint extractionFingerprint
    unfold candStable at h
    rw [h]

def c5Cand1 : Candidate :=
  { kind := "preferences", statement := "I like Soccer on weekends",
    title := some "Soccer", confidence := some (9 / 10) }

def c5Cand2 : Candidate :=
  { kind := "preferences", statement := "i like soccer on weekends",
    tags := ["sports"] }

/-- C5 counterexample: two candidates whose kinds are equal and whose
statements are *not* equal after whitespace collapsing and truncation (they
differ in letter case) are still assigned the same memoryId, because
`extractionFingerprint` lowercases the statement — a changed statement does
not always yield a different memoryId. -/
theorem claim_C5_counterexample :
    candKind c5Cand1 = candKind c5Cand2 ∧
    normalizeSentence c5Cand1.statement 600 ≠ normalizeSentence c5Cand2.statement 600 ∧
    candMemoryId "src" c5Cand1 = candMemoryId "src" c5Cand2 := by
  decide

/-- C5 witness: candidates with the same kind (up to case) and the same
statement (up to whitespace collapsing) but different title, tags and
confidence resolve to the same memoryId. -/
theorem claim_C5_witness :
    candMemoryId "src"
        { kind := "Preferences", statement := "likes soccer a lot", title := some "t" }
      = candMemoryId "src"
        { kind := "preferences", statement := "likes   soccer a lot",
          confidence := some 1, tags := ["x"] } :=
  (claim_C5 "src" _ _).2 (by decide)

end MemorySvc

namespace MemorySvc

/-! ## Facts about the pseudo-embedding (claim C9 support) -/

theorem sum_map_div (l : List ℝ) (c : ℝ) :
    (l.map (fun x => x / c)).sum = l.sum / c := by
  induction l with
  | nil => simp
  | cons x rest ih => simp [ih, add_div]

theorem sum_sq_eq_zero {v : List ℝ}
    (h : (v.map (fun n => n * n)).sum = 0) : ∀ x ∈ v, x = 0 := by
  induction v with
  | nil => simp
  | cons x rest ih =>
    simp only [List.map_cons, List.sum_cons] at h
    have hx : 0 ≤ x * x := mul_self_nonneg x
    have hrest : 0 ≤ (rest.map (fun n => n * n)).sum :=
      List.sum_nonneg (by
        intro y hy
        obtain ⟨z, _, rfl⟩ := List.mem_map.1 hy
        exact mul_self_nonneg z)
    obtain ⟨h1, h2⟩ := (add_eq_zero_iff_of_nonneg hx hrest).1 h
    intro y hy
    rcases List.mem_cons.1 hy with rfl | hy'
    · exact mul_self_eq_zero.1 h1
    · exact ih h2 y hy'

theorem getD_nonneg {v : List ℝ} (h : ∀ x ∈ v, 0 ≤ x) (i : Nat) :
    0 ≤ v.getD i 0 := by
  by_cases hi : i < v.length
  · rw [List.getD_eq_getElem v 0 hi]
    exact h _ (List.getElem_mem hi)
  · rw [List.getD_eq_default v 0 (Nat.le_of_not_lt hi)]

theorem sum_set_getD (v : List ℝ) (i : Nat) (x : ℝ) (h : i < v.length) :
    (v.set i (v.getD i 0 + x)).sum = v.sum + x := by
  rw [List.sum_set, if_pos h, List.getD_eq_getElem v 0 h]
  have hv : v.sum = (v.take i).sum + (v[i] :: v.drop (i + 1)).sum := by
    conv_lhs => rw [← List.take_append_drop i v]
    rw [List.sum_append]
    congr 1
    rw [List.drop_eq_getElem_cons h]
  rw [hv]
  simp only [List.sum_cons]
  ring

theorem bumpToken_length (digest : Digest) (dims : Nat) (v : List ℝ) (t : String) :
    (bumpToken digest dims v t).length = v.length := by
  simp [bumpToken]

theorem bumpToken_nonneg (digest : Digest) (dims : Nat) (v : List ℝ) (t : String)
    (h : ∀ x ∈ v, 0 ≤ x) : ∀ x ∈ bumpToken digest dims v t, 0 ≤ x := by
  intro x hx
  have h1 : ∀ y ∈ v.set ((digest t).1 % dims) (v.getD ((digest t).1 % dims) 0 + 1), 0 ≤ y := by
    intro y hy
    rcases List.mem_or_eq_of_mem_set hy with hy' | rfl
    · exact h y hy'
    · have := getD_nonneg h ((digest t).1 % dims)
      linarith
  unfold bumpToken at hx
  rcases List.mem_or_eq_of_mem_set hx with hx' | rfl
  · exact h1 x hx'
  · have := getD_nonneg h1 ((digest t).2 % dims)
    linarith

theorem bumpToken_sum (digest : Digest) (dims : Nat) (v : List ℝ) (t : String)
    (hlen : v.length = dims) (hpos : 0 < dims) :
    (bumpToken digest dims v t).sum = v.sum + (3 / 2 : ℝ) := by
  have ha : (digest t).1 % dims < v.length := by
    rw [hlen]; exact Nat.mod_lt _ hpos
  have hb : (digest t).2 % dims <
      (v.set ((digest t).1 % dims) (v.getD ((digest t).1 % dims) 0 + 1)).length := by
    rw [List.length_set, hlen]; exact Nat.mod_lt _ hpos
  unfold bumpToken
  rw [sum_set_getD _ _ _ hb, sum_set_getD _ _ _ ha]
  ring_nf

theorem foldl_bumpToken_length (digest : Digest) (dims : Nat) (ts : List String) :
    ∀ v : List ℝ, (ts.foldl (bumpToken digest dims) v).length = v.length := by
  induction ts with
  | nil => intro v; rfl
  | cons t rest ih =>
    intro v
    rw [List.foldl_cons, ih, bumpToken_length]

theorem raw_length (digest : Digest) (input : String) (dims : Nat) :
    (pseudoEmbeddingRaw digest input dims).length = dims := by
  unfold pseudoEmbeddingRaw
  rw [foldl_bumpToken_length, List.length_replicate]

end MemorySvc

namespace MemorySvc

theorem foldl_bumpToken_nonneg (digest : Digest) (dims : Nat) (ts : List String) :
    ∀ v : List ℝ, (∀ x ∈ v, 0 ≤ x) →
      ∀ x ∈ ts.foldl (bumpToken digest dims) v, 0 ≤ x := by
  induction ts with
  | nil => intro v hv; simpa using hv
  | cons t rest ih =>
    intro v hv
    rw [List.foldl_cons]
    exact ih _ (bumpToken_nonneg digest dims v t hv)

theorem foldl_bumpToken_sum (digest : Digest) (dims : Nat) (hpos : 0 < dims)
    (ts : List String) :
    ∀ v : List ℝ, v.length = dims →
      (ts.foldl (bumpToken digest dims) v).sum = v.sum + (3 / 2 : ℝ) * ts.length := by
  induction ts with
  | nil => intro v _; simp
  | cons t rest ih =>
    intro v hlen
    rw [List.foldl_cons, ih _ (by rw [bumpToken_length]; exact hlen),
      bumpToken_sum digest dims v t hlen hpos]
    push_cast [List.length_cons]
    ring

theorem raw_nonneg (digest : Digest) (input : String) (dims : Nat) :
    ∀ x ∈ pseudoEmbeddingRaw digest input dims, 0 ≤ x := by
  unfold pseudoEmbeddingRaw
  exact foldl_bumpToken_nonneg digest dims _ _ (by simp)

theorem raw_sum (digest : Digest) (input : String) (dims : Nat) (hpos : 0 < dims) :
    (pseudoEmbeddingRaw digest input dims).sum = (3 / 2 : ℝ) * (jsTokenize input).length := by
  unfold pseudoEmbeddingRaw
  rw [foldl_bumpToken_sum digest dims hpos _ _ (List.length_replicate _ _)]
  simp

/-- C9: `pseudoEmbedding` is a pure function of its input text and the
per-token digest (determinism is purity of the model — no collaborator other
than the hash is consulted, and the theorem holds for *every* digest
function): it always returns a 256-element vector; when the input has no
alphanumeric tokens the result is the all-zero vector; otherwise the result
has Euclidean norm 1. -/
theorem claim_C9 (digest : Digest) (input : String) :
    (pseudoEmbedding digest input).length = 256 ∧
    (jsTokenize input = [] →
      pseudoEmbedding digest input = List.replicate 256 (0 : ℝ)) ∧
    (jsTokenize input ≠ [] →
      Real.sqrt (((pseudoEmbedding digest input).map (fun x => x * x)).sum) = 1) := by
  refine ⟨?_, ?_, ?_⟩
  · unfold pseudoEmbedding normalizeVector
    split
    · exact raw_length digest input 256
    · rw [List.length_map]
      exact raw_length digest input 256
  · intro htok
    unfold pseudoEmbedding pseudoEmbeddingRaw
    rw [htok]
    simp only [List.foldl_nil]
    unfold normalizeVector
    have hz : ((List.replicate 256 (0 : ℝ)).map (fun n => n * n)).sum = 0 := by
      rw [List.map_replicate, List.sum_replicate]
      simp
    rw [hz, Real.sqrt_zero, if_pos rfl]
  · intro htok
    set raw := pseudoEmbeddingRaw digest input 256 with hraw
    have hnn : ∀ x ∈ raw, 0 ≤ x := raw_nonneg digest input 256
    have hSnn : 0 ≤ (raw.map (fun n => n * n)).sum :=
      List.sum_nonneg (by
        intro y hy
        obtain ⟨z, _, rfl⟩ := List.mem_map.1 hy
        exact mul_self_nonneg z)
    have hSne : (raw.map (fun n => n * n)).sum ≠ 0 := by
      intro hS0
      have hall := sum_sq_eq_zero hS0
      have hsum0 : raw.sum = 0 := List.sum_eq_zero hall
      have hk : 1 ≤ (jsTokenize input).length := by
        cases hcase : jsTokenize input with
        | nil => exact absurd hcase htok
        | cons _ _ => simp
      have := raw_sum digest input 256 (by norm_num)
      rw [hsum0] at this
      have hkr : (1 : ℝ) ≤ ((jsTokenize input).length : ℝ) := by exact_mod_cast hk
      nlinarith
    have hSpos : 0 < (raw.map (fun n => n * n)).sum := lt_of_le_of_ne hSnn (Ne.symm hSne)
    have hnormpos : 0 < Real.sqrt ((raw.map (fun n => n * n)).sum) :=
      Real.sqrt_pos.2 hSpos
    unfold pseudoEmbedding normalizeVector
    rw [← hraw, if_neg (ne_of_gt hnormpos)]
    have hmap : (raw.map (fun n => n / Real.sqrt ((raw.map (fun n => n * n)).sum))).map
          (fun x => x * x)
        = (raw.map (fun n => n * n)).map
            (fun y => y / (Real.sqrt ((raw.map (fun n => n * n)).sum) *
              Real.sqrt ((raw.map (fun n => n * n)).sum))) := by
      rw [List.map_map, List.map_map]
      apply List.map_congr_left
      intro x _
      simp only [Function.comp]
      rw [div_mul_div_comm]
    rw [hmap, sum_map_div, Real.mul_self_sqrt hSnn, div_self hSne, Real.sqrt_one]

/-- C9 witness: a one-token input yields a norm-1 vector of length 256, and an
input with no alphanumeric characters yields the zero vector. -/
theorem claim_C9_witness :
    (pseudoEmbedding (fun _ => (0, 1)) "hi there").length = 256 ∧
    Real.sqrt (((pseudoEmbedding (fun _ => (0, 1)) "hi there").map (fun x => x * x)).sum) = 1 ∧
    pseudoEmbedding (fun _ => (0, 1)) "?!" = List.replicate 256 (0 : ℝ) := by
  refine ⟨(claim_C9 (fun _ => (0, 1)) "hi there").1,
    (claim_C9 (fun _ => (0, 1)) "hi there").2.2 (by decide),
    (claim_C9 (fun _ => (0, 1)) "?!").2.1 (by decide)⟩

end MemorySvc

namespace MemorySvc

/-- C10: `cosineSimilarity` is total — on a non-array argument, mismatched
lengths, or a zero-magnitude vector (non-numeric entries coerced to 0) it
returns 0, and otherwise it returns the dot product divided by the product of
the Euclidean norms.  (JS float arithmetic is idealised as exact real
arithmetic, where the guards make a NaN result impossible; in Lean the
function is total by construction, so "never throws" is the totality of the
definition.) -/
theorem claim_C10 (a b : JsVec) :
    ((a = JsVec.nonArray ∨ b = JsVec.nonArray) → cosineSimilarity a b = 0) ∧
    (∀ xs ys, a = JsVec.arr xs → b = JsVec.arr ys →
      (xs.length ≠ ys.length → cosineSimilarity a b = 0) ∧
      (xs.length = ys.length →
        ((xs.map (fun x => entryNum x * entryNum x)).sum = 0 ∨
            (ys.map (fun y => entryNum y * entryNum y)).sum = 0 →
          cosineSimilarity a b = 0) ∧
        (¬((xs.map (fun x => entryNum x * entryNum x)).sum = 0 ∨
            (ys.map (fun y => entryNum y * entryNum y)).sum = 0) →
          cosineSimilarity a b =
            ((xs.zip ys).map (fun p => entryNum p.1 * entryNum p.2)).sum /
              (Real.sqrt ((xs.map (fun x => entryNum x * entryNum x)).sum) *
                Real.sqrt ((ys.map (fun y => entryNum y * entryNum y)).sum))))) := by
  constructor
  · intro h
    rcases h with rfl | rfl
    · rfl
    · cases a <;> rfl
  · rintro xs ys rfl rfl
    constructor
    · intro hne
      simp [cosineSimilarity, hne]
    · intro hlen
      constructor
      · intro hz
        simp only [cosineSimilarity, hlen, ne_eq, not_true_eq_false, if_false]
        rw [if_pos hz]
      · intro hnz
        have hmagA : 0 ≤ (xs.map (fun x => entryNum x * entryNum x)).sum :=
          List.sum_nonneg (by
            intro y hy
            obtain ⟨z, _, rfl⟩ := List.mem_map.1 hy
            exact mul_self_nonneg _)
        simp only [cosineSimilarity, hlen, ne_eq, not_true_eq_false, if_false, hnz]
        rw [Real.sqrt_mul hmagA]

/-- C10 witness: a zero vector yields similarity 0, a non-array argument
yields 0, and mismatched lengths yield 0. -/
theorem claim_C10_witness :
    cosineSimilarity (.arr [some 0, none]) (.arr [some 1, some 2]) = 0 ∧
    cosineSimilarity .nonArray (.arr [some 1]) = 0 ∧
    cosineSimilarity (.arr [some 1, some 2]) (.arr [some 1]) = 0 := by
  refine ⟨?_, ?_, ?_⟩
  · refine (((claim_C10 (.arr [some 0, none]) (.arr [some 1, some 2])).2
      [some 0, none] [some 1, some 2] rfl rfl).2 rfl).1 (Or.inl ?_)
    simp [entryNum]
  · exact (claim_C10 .nonArray (.arr [some 1])).1 (Or.inl rfl)
  · exact ((claim_C10 (.arr [some 1, some 2]) (.arr [some 1])).2
      [some 1, some 2] [some 1] rfl rfl).1 (by decide)

end MemorySvc

namespace MemorySvc

/-! ## C2: the empty-result guard of applyExtractedMemories -/

theorem applyExtractLoop_skipAll (sourceId : String) (source : SourceRow)
    (version : VersionRow) (existing : List MemRow) (now : ℚ) :
    ∀ (st : St) (cands : List Candidate) (keep : List String) (persisted : List MemRow),
      (∀ c ∈ cands, candSurvives c = false) →
      applyExtractLoop sourceId source version existing now st cands keep persisted
        = (st, .ok (keep, persisted)) := by
  intro st cands
  induction cands generalizing st with
  | nil => intro keep persisted _; rfl
  | cons c rest ih =>
    intro keep persisted h
    have hc : candSurvives c = false := h c (List.mem_cons_self c rest)
    unfold applyExtractLoop
    rw [if_pos (by simp [hc])]
    exact ih st _ _ (fun d hd => h d (List.mem_cons_of_mem c hd))

/-- C2: when no candidate survives normalisation and filtering and
`allowEmpty` is false, `applyExtractedMemories` throws and leaves the entire
store — in particular every Memory, CategoryAssignment and Evidence row of the
source — exactly as it was (no deletion or pruning occurs). -/
theorem claim_C2 (st : St) (sourceId : String) (sourceVersion : Option Nat)
    (cands : List Candidate) (now : ℚ)
    (hempty : ∀ c ∈ cands, candSurvives c = false) :
    (applyExtractedMemories st sourceId sourceVersion cands false now).1 = st ∧
    ∃ e, (applyExtractedMemories st sourceId sourceVersion cands false now).2
      = Except.error e := by
  unfold applyExtractedMemories
  cases hsrc : getSourceById st sourceId with
  | none => exact ⟨rfl, _, rfl⟩
  | some source =>
    cases hver : (match sourceVersion with
                  | none => getLatestVersion st sourceId
                  | some v => getSourceVersion st sourceId v) with
    | none => exact ⟨rfl, _, rfl⟩
    | some version =>
      dsimp only
      rw [applyExtractLoop_skipAll sourceId source version
        (listMemoryRecordsBySource st sourceId) now st cands [] [] hempty]
      simp

def c2State : St :=
  { sources := [{ sourceId := "s", sourceFilename := "s.md", sourcePath := none,
                  sourceKind := "markdown", isDeleted := false, firstSeenAt := 0,
                  lastSeenAt := 0, lastChecksum := some "a" }],
    versions := [{ sourceId := "s", version := 1, checksum := "a", fuzzyHash := "fa",
                   contentMarkdown := "Existing content here.", agentfsUri := none,
                   contentBytes := 22, createdAt := 0 }],
    memories := [{ memoryId := "m1", sourceId := "s", latestVersion := 1,
                   titleManual := none, notesManual := none,
                   summaryAuto := some "an existing fact", tagsAuto := [],
                   effectiveTitle := none, effectiveSummary := some "an existing fact",
                   effectiveTags := [], createdAt := 0, updatedAt := 0,
                   meta := { memoryKind := "extracted_atomic_memory" } }] }

/-- C2 witness: a call whose only candidates fail the filter (statement too
short, and kind missing) throws and leaves a store with an existing extracted
memory untouched. -/
theorem claim_C2_witness :
    (applyExtractedMemories c2State "s" (some 1)
        [{ kind := "preferences", statement := "short" },
         { kind := "", statement := "long enough statement but no kind" }]
        false 7).1 = c2State ∧
    ∃ e, (applyExtractedMemories c2State "s" (some 1)
        [{ kind := "preferences", statement := "short" },
         { kind := "", statement := "long enough statement but no kind" }]
        false 7).2 = Except.error e :=
  claim_C2 c2State "s" (some 1)
    [{ kind := "preferences", statement := "short" },
     { kind := "", statement := "long enough statement but no kind" }] 7
    (by decide)

end MemorySvc

namespace MemorySvc

/-! ## Generic list helpers for the frame arguments -/

theorem map_id_on {α : Type} (f : α → α) :
    ∀ l : List α, (∀ x ∈ l, f x = x) → l.map f = l := by
  intro l
  induction l with
  | nil => intro _; rfl
  | cons x rest ih =>
    intro h
    rw [List.map_cons, h x (List.mem_cons_self x rest),
      ih (fun y hy => h y (List.mem_cons_of_mem x hy))]

theorem filter_map_eq {α : Type} (p : α → Bool) (f : α → α)
    (h1 : ∀ x, p x = true → f x = x) (h2 : ∀ x, p x = false → p (f x) = false) :
    ∀ l : List α, (l.map f).filter p = l.filter p := by
  intro l
  induction l with
  | nil => rfl
  | cons x rest ih =>
    rw [List.map_cons, List.filter_cons, List.filter_cons]
    cases hx : p x with
    | true => rw [h1 x hx, hx, ih]
    | false =>
      rw [h2 x hx, ih]
      simp

theorem filter_of_filter_sub {α : Type} (p q : α → Bool)
    (himp : ∀ x, p x = true → q x = true) :
    ∀ l : List α, (l.filter q).filter p = l.filter p := by
  intro l
  rw [List.filter_filter]
  apply List.filter_congr
  intro x _
  cases hx : p x with
  | true => simp [hx, himp x hx]
  | false => simp [hx]

theorem filter_of_filter_none {α : Type} (p q : α → Bool)
    (himp : ∀ x, p x = true → q x = false) :
    ∀ l : List α, (l.filter q).filter p = [] := by
  intro l
  rw [List.filter_filter]
  rw [List.filter_eq_nil_iff]
  intro x _
  cases hx : p x with
  | true => simp [himp x hx]
  | false => simp [hx]

end MemorySvc


namespace MemorySvc

/-- The frame an organizer-scoped write must respect: every table except the
related-link table is untouched, except that category rows under the write's
own `assignmentSource` may change — rows under any other assignment source are
preserved verbatim. -/
def OrganizerFrame (src : String) (st st' : St) : Prop :=
  st'.sources = st.sources ∧ st'.versions = st.versions ∧ st'.memories = st.memories ∧
  st'.categories = st.categories ∧ st'.evidence = st.evidence ∧ st'.runs = st.runs ∧
  st'.nextRunId = st.nextRunId ∧
  st'.memCategories.filter (fun c => ¬(c.assignmentSource = src)) =
    st.memCategories.filter (fun c => ¬(c.assignmentSource = src))

theorem organizerFrame_refl (src : String) (st : St) : OrganizerFrame src st st :=
  ⟨rfl, rfl, rfl, rfl, rfl, rfl, rfl, rfl⟩

theorem organizerFrame_trans {src : String} {s1 s2 s3 : St}
    (h1 : OrganizerFrame src s1 s2) (h2 : OrganizerFrame src s2 s3) :
    OrganizerFrame src s1 s3 := by
  obtain ⟨a1, b1, c1, d1, e1, f1, g1, h1'⟩ := h1
  obtain ⟨a2, b2, c2, d2, e2, f2, g2, h2'⟩ := h2
  exact ⟨a2.trans a1, b2.trans b1, c2.trans c1, d2.trans d1, e2.trans e1,
    f2.trans f1, g2.trans g1, h2'.trans h1'⟩

theorem assignMemoryCategory_frame (st : St) (mid cid src : String)
    (conf : Option ℚ) (r : Option String) (t : ℚ) :
    OrganizerFrame src st ((assignMemoryCategory st mid cid src conf r t).1) := by
  unfold assignMemoryCategory
  split
  · exact organizerFrame_refl src st
  · split
    · refine ⟨rfl, rfl, rfl, rfl, rfl, rfl, rfl, ?_⟩
      apply filter_map_eq
      · intro x hx
        rw [if_neg]
        rintro ⟨_, _, h3⟩
        exact (of_decide_eq_true hx) h3
      · intro x hx
        by_cases hcond : x.memoryId = mid ∧ x.categoryId = cid ∧ x.assignmentSource = src
        · rw [if_pos hcond]; exact hx
        · rw [if_neg hcond]; exact hx
    · refine ⟨rfl, rfl, rfl, rfl, rfl, rfl, rfl, ?_⟩
      rw [List.filter_append]
      have h0 : List.filter (fun c => ¬(c.assignmentSource = src))
          [(⟨mid, cid, src, conf, r, t, t⟩ : CatRow)] = [] := by simp
      rw [h0, List.append_nil]

theorem assignLoop_frame (mid src : String) (t : ℚ) :
    ∀ (assignments : List CatAssignment) (st : St),
      OrganizerFrame src st ((assignLoop mid src t st assignments).1) := by
  intro assignments
  induction assignments with
  | nil => intro st; exact organizerFrame_refl src st
  | cons a rest ih =>
    intro st
    unfold assignLoop
    cases hstep : assignMemoryCategory st mid a.categoryId src a.confidence a.reason t with
    | mk st' res =>
      have hfr : OrganizerFrame src st st' := by
        have h := assignMemoryCategory_frame st mid a.categoryId src a.confidence a.reason t
        rw [hstep] at h
        exact h
      cases res with
      | ok u =>
        cases u
        exact organizerFrame_trans hfr (ih st')
      | error e => exact hfr

theorem replaceMemoryCategoriesBySource_frame (st : St) (mid src : String)
    (assignments : List CatAssignment) (t : ℚ) :
    OrganizerFrame src st ((replaceMemoryCategoriesBySource st mid src assignments t).1) := by
  unfold replaceMemoryCategoriesBySource
  dsimp only
  have hdel : OrganizerFrame src st
      { st with memCategories := (st.memCategories.filter
          (fun c => ¬(c.memoryId = mid ∧ c.assignmentSource = src))) } := by
    refine ⟨rfl, rfl, rfl, rfl, rfl, rfl, rfl, ?_⟩
    apply filter_of_filter_sub
    intro x hx
    rw [decide_eq_true_eq] at hx ⊢
    rintro ⟨_, h2⟩
    exact hx h2
  cases hloop : assignLoop mid src t
      { st with memCategories := (st.memCategories.filter
          (fun c => ¬(c.memoryId = mid ∧ c.assignmentSource = src))) } assignments with
  | mk st2 res =>
    have hfr := assignLoop_frame mid src t assignments
      { st with memCategories := (st.memCategories.filter
          (fun c => ¬(c.memoryId = mid ∧ c.assignmentSource = src))) }
    rw [hloop] at hfr
    cases res with
    | ok u =>
      cases u
      exact organizerFrame_trans hdel hfr
    | error e => exact organizerFrame_refl src st

theorem organizerCatLoop_frame (src : String) (t : ℚ) :
    ∀ (cas : List OrgAssignment) (st : St) (n : Nat),
      OrganizerFrame src st ((organizerCatLoop src t st cas n).1) := by
  intro cas
  induction cas with
  | nil => intro st n; exact organizerFrame_refl src st
  | cons a rest ih =>
    intro st n
    unfold organizerCatLoop
    dsimp only
    by_cases hmid : trimStr a.memoryId = ""
    · rw [if_pos hmid]
      exact ih st n
    · rw [if_neg hmid]
      cases hstep : replaceMemoryCategoriesBySource st (trimStr a.memoryId) src
          [{ categoryId := orgCategoryId a, confidence := a.confidence,
             reason := if optTruthy a.reason then some (a.reason.getD "") else none }] t with
      | mk st' res =>
        have hfr : OrganizerFrame src st st' := by
          have h := replaceMemoryCategoriesBySource_frame st (trimStr a.memoryId) src
            [{ categoryId := orgCategoryId a, confidence := a.confidence,
               reason := if optTruthy a.reason then some (a.reason.getD "") else none }] t
          rw [hstep] at h
          exact h
        cases res with
        | ok u =>
          cases u
          exact organizerFrame_trans hfr (ih st' (n + 1))
        | error e => exact hfr

theorem upsertRelatedMemory_frame (st : St) (mid rid rt : String)
    (conf : Option ℚ) (r : Option String) (t : ℚ) (src : String) :
    OrganizerFrame src st ((upsertRelatedMemory st mid rid rt conf r t).1) := by
  unfold upsertRelatedMemory
  split
  · exact organizerFrame_refl src st
  · split
    · exact ⟨rfl, rfl, rfl, rfl, rfl, rfl, rfl, rfl⟩
    · exact ⟨rfl, rfl, rfl, rfl, rfl, rfl, rfl, rfl⟩

theorem organizerLinkLoop_frame (rt : String) (t : ℚ) (src : String) :
    ∀ (links : List OrgLink) (st : St) (n : Nat),
      OrganizerFrame src st ((organizerLinkLoop rt t st links n).1) := by
  intro links
  induction links with
  | nil => intro st n; exact organizerFrame_refl src st
  | cons l rest ih =>
    intro st n
    unfold organizerLinkLoop
    dsimp only
    by_cases hskip : trimStr l.memoryId = "" ∨ trimStr l.relatedMemoryId = "" ∨
        trimStr l.memoryId = trimStr l.relatedMemoryId
    · rw [if_pos hskip]
      exact ih st n
    · rw [if_neg hskip]
      cases hstep1 : upsertRelatedMemory st (trimStr l.memoryId) (trimStr l.relatedMemoryId)
          rt l.confidence (if optTruthy l.reason then some (l.reason.getD "") else none) t with
      | mk st1 res1 =>
        have hfr1 : OrganizerFrame src st st1 := by
          have h := upsertRelatedMemory_frame st (trimStr l.memoryId)
            (trimStr l.relatedMemoryId) rt l.confidence
            (if optTruthy l.reason then some (l.reason.getD "") else none) t src
          rw [hstep1] at h
          exact h
        cases res1 with
        | error e => exact hfr1
        | ok u =>
          cases u
          dsimp only
          cases hstep2 : upsertRelatedMemory st1 (trimStr l.relatedMemoryId)
              (trimStr l.memoryId) rt l.confidence
              (if optTruthy l.reason then some (l.reason.getD "") else none) t with
          | mk st2 res2 =>
            have hfr2 : OrganizerFrame src st1 st2 := by
              have h := upsertRelatedMemory_frame st1 (trimStr l.relatedMemoryId)
                (trimStr l.memoryId) rt l.confidence
                (if optTruthy l.reason then some (l.reason.getD "") else none) t src
              rw [hstep2] at h
              exact h
            cases res2 with
            | error e => exact organizerFrame_trans hfr1 hfr2
            | ok u =>
              cases u
              exact organizerFrame_trans hfr1 (organizerFrame_trans hfr2 (ih st2 (n + 2)))

end MemorySvc

namespace MemorySvc

theorem getMemoryById_eq_of_memories {st st' : St} (h : st'.memories = st.memories)
    (mid : String) : getMemoryById st' mid = getMemoryById st mid := by
  unfold getMemoryById
  rw [h]

theorem assignMemoryCategory_append (st : St) (mid cid src : String)
    (conf : Option ℚ) (r : Option String) (t : ℚ)
    (hmem : (getMemoryById st mid).isSome = true)
    (hcat : st.categories.contains cid = true)
    (hany : (st.memCategories.any (fun c => c.memoryId = mid && c.categoryId = cid &&
      c.assignmentSource = src)) = false) :
    assignMemoryCategory st mid cid src conf r t
      = ({ st with memCategories := st.memCategories ++
            [{ memoryId := mid, categoryId := cid, assignmentSource := src,
               confidence := conf, reason := r, createdAt := t, updatedAt := t }] },
         .ok ()) := by
  unfold assignMemoryCategory
  have h1 : ((getMemoryById st mid).isNone || !(st.categories.contains cid)) = false := by
    obtain ⟨m, hm⟩ := Option.isSome_iff_exists.1 hmem
    rw [hm, hcat]
    rfl
  rw [h1, hany]
  rfl

theorem assignLoop_singleton (mid src : String) (t : ℚ) (st : St) (a : CatAssignment)
    (hmem : (getMemoryById st mid).isSome = true)
    (hcat : st.categories.contains a.categoryId = true)
    (hany : (st.memCategories.any (fun c => c.memoryId = mid &&
      c.categoryId = a.categoryId && c.assignmentSource = src)) = false) :
    assignLoop mid src t st [a]
      = ({ st with memCategories := st.memCategories ++
            [{ memoryId := mid, categoryId := a.categoryId, assignmentSource := src,
               confidence := a.confidence, reason := a.reason,
               createdAt := t, updatedAt := t }] },
         .ok ()) := by
  unfold assignLoop
  rw [assignMemoryCategory_append st mid a.categoryId src a.confidence a.reason t
    hmem hcat hany]
  rfl

/-- Exact replacement semantics of `replaceMemoryCategoriesBySource` for the
singleton assignment lists the service passes: the memory's rows under the
given source become exactly the one new row, and every row under another
`(memoryId, assignmentSource)` combination is untouched. -/
theorem replaceCats_singleton (st : St) (mid src : String) (a : CatAssignment) (t : ℚ)
    (hmem : (getMemoryById st mid).isSome = true)
    (hcat : st.categories.contains a.categoryId = true) :
    replaceMemoryCategoriesBySource st mid src [a] t
      = ({ st with memCategories :=
            (st.memCategories.filter
              (fun c => ¬(c.memoryId = mid ∧ c.assignmentSource = src))) ++
            [{ memoryId := mid, categoryId := a.categoryId, assignmentSource := src,
               confidence := a.confidence, reason := a.reason,
               createdAt := t, updatedAt := t }] },
         .ok ()) := by
  unfold replaceMemoryCategoriesBySource
  dsimp only
  rw [assignLoop_singleton mid src t
    { st with memCategories := (st.memCategories.filter
        (fun c => ¬(c.memoryId = mid ∧ c.assignmentSource = src))) } a
    (by
      rw [getMemoryById_eq_of_memories
        (show ({ st with memCategories := (st.memCategories.filter
          (fun c => ¬(c.memoryId = mid ∧ c.assignmentSource = src))) } : St).memories
            = st.memories from rfl) mid]
      exact hmem)
    hcat
    (by
      rw [List.any_eq_false]
      intro x hx
      have hnot := of_decide_eq_true (List.mem_filter.1 hx).2
      simp only [Bool.and_eq_true, decide_eq_true_eq, not_and]
      intro hx1 hx3
      exact absurd ⟨hx1.1, hx3⟩ hnot)]

theorem replaceCats_singleton_filters (st : St) (mid src : String) (a : CatAssignment)
    (t : ℚ)
    (hmem : (getMemoryById st mid).isSome = true)
    (hcat : st.categories.contains a.categoryId = true) :
    ((replaceMemoryCategoriesBySource st mid src [a] t).1).memCategories.filter
        (fun c => c.memoryId = mid ∧ c.assignmentSource = src)
      = [{ memoryId := mid, categoryId := a.categoryId, assignmentSource := src,
           confidence := a.confidence, reason := a.reason,
           createdAt := t, updatedAt := t }] ∧
    ((replaceMemoryCategoriesBySource st mid src [a] t).1).memCategories.filter
        (fun c => ¬(c.memoryId = mid ∧ c.assignmentSource = src))
      = st.memCategories.filter
          (fun c => ¬(c.memoryId = mid ∧ c.assignmentSource = src)) := by
  rw [replaceCats_singleton st mid src a t hmem hcat]
  constructor
  · show ((st.memCategories.filter
        (fun c => ¬(c.memoryId = mid ∧ c.assignmentSource = src))) ++ _).filter _ = _
    rw [List.filter_append]
    have hnil : (st.memCategories.filter
        (fun c => ¬(c.memoryId = mid ∧ c.assignmentSource = src))).filter
          (fun c => c.memoryId = mid ∧ c.assignmentSource = src) = [] := by
      apply filter_of_filter_none
      intro x hx
      apply decide_eq_false
      exact not_not_intro (of_decide_eq_true hx)
    rw [hnil, List.nil_append]
    simp
  · show ((st.memCategories.filter
        (fun c => ¬(c.memoryId = mid ∧ c.assignmentSource = src))) ++ _).filter _ = _
    rw [List.filter_append]
    have hseq : (st.memCategories.filter
        (fun c => ¬(c.memoryId = mid ∧ c.assignmentSource = src))).filter
          (fun c => ¬(c.memoryId = mid ∧ c.assignmentSource = src))
        = st.memCategories.filter
            (fun c => ¬(c.memoryId = mid ∧ c.assignmentSource = src)) :=
      filter_of_filter_sub _ _ (fun x hx => hx) _
    rw [hseq]
    have hnil2 : List.filter (fun c => ¬(c.memoryId = mid ∧ c.assignmentSource = src))
        [({ memoryId := mid, categoryId := a.categoryId, assignmentSource := src,
            confidence := a.confidence, reason := a.reason,
            createdAt := t, updatedAt := t } : CatRow)] = [] := by
      simp
    rw [hnil2, List.append_nil]

end MemorySvc

namespace MemorySvc

/-- A successful `upsertRelatedMemory` leaves a row carrying exactly the given
key, confidence and reason, and keeps every row with a different
`(memoryId, relatedMemoryId, relationType)` key. -/
theorem upsertRelatedMemory_ok (st : St) (mid rid rt : String) (conf : Option ℚ)
    (r : Option String) (t : ℚ)
    (h1 : (getMemoryById st mid).isSome = true)
    (h2 : (getMemoryById st rid).isSome = true) :
    ∃ st', upsertRelatedMemory st mid rid rt conf r t = (st', .ok ()) ∧
      st'.memories = st.memories ∧
      (∃ row ∈ st'.related, row.memoryId = mid ∧ row.relatedMemoryId = rid ∧
        row.relationType = rt ∧ row.confidence = conf ∧ row.reason = r) ∧
      (∀ row ∈ st.related,
        ¬(row.memoryId = mid ∧ row.relatedMemoryId = rid ∧ row.relationType = rt) →
          row ∈ st'.related) := by
  have hfk : ((getMemoryById st mid).isNone || (getMemoryById st rid).isNone) = false := by
    obtain ⟨m1, hm1⟩ := Option.isSome_iff_exists.1 h1
    obtain ⟨m2, hm2⟩ := Option.isSome_iff_exists.1 h2
    rw [hm1, hm2]
    rfl
  unfold upsertRelatedMemory
  rw [hfk]
  simp only [Bool.false_eq_true, if_false]
  cases hany : st.related.any (fun x => x.memoryId = mid && x.relatedMemoryId = rid &&
      x.relationType = rt) with
  | true =>
    simp only [if_true]
    refine ⟨_, rfl, rfl, ?_, ?_⟩
    · obtain ⟨x, hxmem, hxkey⟩ := List.any_eq_true.1 hany
      simp only [Bool.and_eq_true, decide_eq_true_eq] at hxkey
      obtain ⟨⟨hk1, hk2⟩, hk3⟩ := hxkey
      refine ⟨{ x with confidence := conf, reason := r, updatedAt := t }, ?_, hk1, hk2, hk3, rfl, rfl⟩
      have : (if x.memoryId = mid ∧ x.relatedMemoryId = rid ∧ x.relationType = rt then
          { x with confidence := conf, reason := r, updatedAt := t } else x)
          = { x with confidence := conf, reason := r, updatedAt := t } :=
        if_pos ⟨hk1, hk2, hk3⟩
      rw [← this]
      exact List.mem_map_of_mem _ hxmem
    · intro row hrow hnk
      have : (if row.memoryId = mid ∧ row.relatedMemoryId = rid ∧ row.relationType = rt then
          { row with confidence := conf, reason := r, updatedAt := t } else row) = row :=
        if_neg hnk
      rw [← this]
      exact List.mem_map_of_mem _ hrow
  | false =>
    simp only [Bool.false_eq_true, if_false]
    refine ⟨_, rfl, rfl, ?_, ?_⟩
    · exact ⟨{ memoryId := mid, relatedMemoryId := rid, relationType := rt,
               confidence := conf, reason := r, createdAt := t, updatedAt := t },
        List.mem_append_right _ (List.mem_singleton.2 rfl), rfl, rfl, rfl, rfl, rfl⟩
    · intro row hrow _
      exact List.mem_append_left _ hrow

/-- Re-applying the identical `upsertRelatedMemory` is the identity: the upsert
is idempotent on the `(memoryId, relatedMemoryId, relationType)` key. -/
theorem upsertRelatedMemory_idem (st : St) (mid rid rt : String) (conf : Option ℚ)
    (r : Option String) (t : ℚ) :
    upsertRelatedMemory (upsertRelatedMemory st mid rid rt conf r t).1 mid rid rt conf r t
      = upsertRelatedMemory st mid rid rt conf r t := by
  cases hfk : ((getMemoryById st mid).isNone || (getMemoryById st rid).isNone) with
  | true =>
    have hres : upsertRelatedMemory st mid rid rt conf r t
        = (st, .error "FOREIGN KEY constraint failed") := by
      unfold upsertRelatedMemory
      rw [hfk]
      rfl
    rw [hres]
    exact hres
  | false =>
    cases hany : st.related.any (fun x => x.memoryId = mid && x.relatedMemoryId = rid &&
        x.relationType = rt) with
    | true =>
      have hres : upsertRelatedMemory st mid rid rt conf r t
          = ({ st with related := st.related.map (fun x =>
                if x.memoryId = mid ∧ x.relatedMemoryId = rid ∧ x.relationType = rt then
                  { x with confidence := conf, reason := r, updatedAt := t }
                else x) }, .ok ()) := by
        unfold upsertRelatedMemory
        rw [hfk, hany]
        rfl
      rw [hres]
      obtain ⟨x, hxmem, hxkey⟩ := List.any_eq_true.1 hany
      simp only [Bool.and_eq_true, decide_eq_true_eq] at hxkey
      obtain ⟨⟨hk1, hk2⟩, hk3⟩ := hxkey
      have hfk2 : ((getMemoryById { st with related := st.related.map (fun x =>
            if x.memoryId = mid ∧ x.relatedMemoryId = rid ∧ x.relationType = rt then
              { x with confidence := conf, reason := r, updatedAt := t }
            else x) } mid).isNone ||
          (getMemoryById { st with related := st.related.map (fun x =>
            if x.memoryId = mid ∧ x.relatedMemoryId = rid ∧ x.relationType = rt then
              { x with confidence := conf, reason := r, updatedAt := t }
            else x) } rid).isNone) = false := by
        rw [getMemoryById_eq_of_memories rfl mid, getMemoryById_eq_of_memories rfl rid]
        exact hfk
      have hany2 : (({ st with related := st.related.map (fun x =>
            if x.memoryId = mid ∧ x.relatedMemoryId = rid ∧ x.relationType = rt then
              { x with confidence := conf, reason := r, updatedAt := t }
            else x) } : St).related.any (fun x => x.memoryId = mid &&
              x.relatedMemoryId = rid && x.relationType = rt)) = true := by
        rw [List.any_eq_true]
        refine ⟨{ x with confidence := conf, reason := r, updatedAt := t }, ?_, ?_⟩
        · have heq : (if x.memoryId = mid ∧ x.relatedMemoryId = rid ∧
              x.relationType = rt then
                { x with confidence := conf, reason := r, updatedAt := t } else x)
              = { x with confidence := conf, reason := r, updatedAt := t } :=
            if_pos ⟨hk1, hk2, hk3⟩
          rw [← heq]
          exact List.mem_map_of_mem _ hxmem
        · simp [hk1, hk2, hk3]
      unfold upsertRelatedMemory
      rw [hfk2, hany2]
      simp only [Bool.false_eq_true, if_false, if_true]
      have hstable : (st.related.map (fun x =>
            if x.memoryId = mid ∧ x.relatedMemoryId = rid ∧ x.relationType = rt then
              { x with confidence := conf, reason := r, updatedAt := t }
            else x)).map (fun x =>
            if x.memoryId = mid ∧ x.relatedMemoryId = rid ∧ x.relationType = rt then
              { x with confidence := conf, reason := r, updatedAt := t }
            else x)
          = st.related.map (fun x =>
            if x.memoryId = mid ∧ x.relatedMemoryId = rid ∧ x.relationType = rt then
              { x with confidence := conf, reason := r, updatedAt := t }
            else x) := by
        rw [List.map_map]
        apply List.map_congr_left
        intro y _
        by_cases hy : y.memoryId = mid ∧ y.relatedMemoryId = rid ∧ y.relationType = rt
        · simp only [Function.comp]
          rw [if_pos hy]
          split
          · rfl
          · rename_i hcon
            exact absurd ⟨hy.1, hy.2.1, hy.2.2⟩ hcon
        · simp only [Function.comp]
          rw [if_neg hy, if_neg hy]
      rw [hstable]
    | false =>
      have hres : upsertRelatedMemory st mid rid rt conf r t
          = ({ st with related := st.related ++
                [{ memoryId := mid, relatedMemoryId := rid, relationType := rt,
                   confidence := conf, reason := r, createdAt := t, updatedAt := t }] },
             .ok ()) := by
        unfold upsertRelatedMemory
        rw [hfk, hany]
        rfl
      rw [hres]
      have hfk2 : ((getMemoryById { st with related := st.related ++
            [{ memoryId := mid, relatedMemoryId := rid, relationType := rt,
               confidence := conf, reason := r, createdAt := t, updatedAt := t }] } mid).isNone ||
          (getMemoryById { st with related := st.related ++
            [{ memoryId := mid, relatedMemoryId := rid, relationType := rt,
               confidence := conf, reason := r, createdAt := t, updatedAt := t }] } rid).isNone)
          = false := by
        rw [getMemoryById_eq_of_memories rfl mid, getMemoryById_eq_of_memories rfl rid]
        exact hfk
      have hany2 : (({ st with related := st.related ++
            [{ memoryId := mid, relatedMemoryId := rid, relationType := rt,
               confidence := conf, reason := r, createdAt := t, updatedAt := t }] } : St).related.any
          (fun x => x.memoryId = mid && x.relatedMemoryId = rid && x.relationType = rt)) = true := by
        rw [List.any_eq_true]
        exact ⟨_, List.mem_append_right _ (List.mem_singleton.2 rfl), by simp⟩
      unfold upsertRelatedMemory
      rw [hfk2, hany2]
      simp only [Bool.false_eq_true, if_false, if_true]
      rw [List.map_append]
      have hmap1 : st.related.map (fun x =>
          if x.memoryId = mid ∧ x.relatedMemoryId = rid ∧ x.relationType = rt then
            { x with confidence := conf, reason := r, updatedAt := t }
          else x) = st.related := by
        apply map_id_on
        intro y hy
        rw [if_neg]
        intro hkey
        have hnm := List.any_eq_false.1 hany y hy
        simp only [Bool.and_eq_true, decide_eq_true_eq, not_and] at hnm
        exact hnm ⟨hkey.1, hkey.2.1⟩ hkey.2.2
      rw [hmap1]
      have hone : List.map (fun x =>
          if x.memoryId = mid ∧ x.relatedMemoryId = rid ∧ x.relationType = rt then
            { x with confidence := conf, reason := r, updatedAt := t }
          else x)
          [({ memoryId := mid, relatedMemoryId := rid, relationType := rt,
              confidence := conf, reason := r, createdAt := t, updatedAt := t } : RelRow)]
          = [({ memoryId := mid, relatedMemoryId := rid, relationType := rt,
                confidence := conf, reason := r, createdAt := t, updatedAt := t } : RelRow)] := by
        simp
      rw [hone]

end MemorySvc

namespace MemorySvc

/-- C8: (i) `applyOrganizerDecisions` never touches any table other than the
related-link table and the category rows under its own assignment source —
rows under any other `assignmentSource` (e.g. `extractor_agent`) are preserved
verbatim; (ii) the category replacement it performs per assignment rewrites
exactly that memory's rows under the given source to the one new row, leaving
rows of other memories or other sources untouched; (iii) a related-link
proposal with distinct non-empty endpoints is written as two directed edges
carrying the same confidence and reason; (iv) the edge write is idempotent on
the `(memoryId, relatedMemoryId, relationType)` key: re-applying the identical
upsert is the identity (timestamps held fixed). -/
theorem claim_C8 :
    (∀ (st : St) (cas : List OrgAssignment) (links : List OrgLink)
        (src rt : String) (now : ℚ),
      ((applyOrganizerDecisions st cas links src rt now).1).sources = st.sources ∧
      ((applyOrganizerDecisions st cas links src rt now).1).versions = st.versions ∧
      ((applyOrganizerDecisions st cas links src rt now).1).memories = st.memories ∧
      ((applyOrganizerDecisions st cas links src rt now).1).evidence = st.evidence ∧
      ((applyOrganizerDecisions st cas links src rt now).1).runs = st.runs ∧
      ((applyOrganizerDecisions st cas links src rt now).1).memCategories.filter
          (fun c => ¬(c.assignmentSource = src))
        = st.memCategories.filter (fun c => ¬(c.assignmentSource = src))) ∧
    (∀ (st : St) (mid src : String) (a : CatAssignment) (t : ℚ),
      (getMemoryById st mid).isSome = true →
      st.categories.contains a.categoryId = true →
      ((replaceMemoryCategoriesBySource st mid src [a] t).1).memCategories.filter
          (fun c => c.memoryId = mid ∧ c.assignmentSource = src)
        = [{ memoryId := mid, categoryId := a.categoryId, assignmentSource := src,
             confidence := a.confidence, reason := a.reason,
             createdAt := t, updatedAt := t }] ∧
      ((replaceMemoryCategoriesBySource st mid src [a] t).1).memCategories.filter
          (fun c => ¬(c.memoryId = mid ∧ c.assignmentSource = src))
        = st.memCategories.filter
            (fun c => ¬(c.memoryId = mid ∧ c.assignmentSource = src))) ∧
    (∀ (st : St) (l : OrgLink) (src rt : String) (now : ℚ),
      trimStr l.memoryId ≠ "" → trimStr l.relatedMemoryId ≠ "" →
      trimStr l.memoryId ≠ trimStr l.relatedMemoryId →
      (getMemoryById st (trimStr l.memoryId)).isSome = true →
      (getMemoryById st (trimStr l.relatedMemoryId)).isSome = true →
      ∃ st', applyOrganizerDecisions st [] [l] src rt now = (st', .ok (0, 2)) ∧
        (∃ row ∈ st'.related, row.memoryId = trimStr l.memoryId ∧
          row.relatedMemoryId = trimStr l.relatedMemoryId ∧ row.relationType = rt ∧
          row.confidence = l.confidence ∧
          row.reason = (if optTruthy l.reason then some (l.reason.getD "") else none)) ∧
        (∃ row ∈ st'.related, row.memoryId = trimStr l.relatedMemoryId ∧
          row.relatedMemoryId = trimStr l.memoryId ∧ row.relationType = rt ∧
          row.confidence = l.confidence ∧
          row.reason = (if optTruthy l.reason then some (l.reason.getD "") else none))) ∧
    (∀ (st : St) (mid rid rt : String) (conf : Option ℚ) (r : Option String) (t : ℚ),
      upsertRelatedMemory (upsertRelatedMemory st mid rid rt conf r t).1
          mid rid rt conf r t
        = upsertRelatedMemory st mid rid rt conf r t) := by
  refine ⟨?_, ?_, ?_, upsertRelatedMemory_idem⟩
  · intro st cas links src rt now
    have hfull : OrganizerFrame src st ((applyOrganizerDecisions st cas links src rt now).1) := by
      unfold applyOrganizerDecisions
      cases hcat : organizerCatLoop src now st cas 0 with
      | mk st1 res1 =>
        have hfr1 : OrganizerFrame src st st1 := by
          have h := organizerCatLoop_frame src now cas st 0
          rw [hcat] at h
          exact h
        cases res1 with
        | error e => exact hfr1
        | ok nc =>
          dsimp only
          cases hlink : organizerLinkLoop rt now st1 links 0 with
          | mk st2 res2 =>
            have hfr2 : OrganizerFrame src st1 st2 := by
              have h := organizerLinkLoop_frame rt now src links st1 0
              rw [hlink] at h
              exact h
            cases res2 with
            | error e => exact organizerFrame_trans hfr1 hfr2
            | ok nr => exact organizerFrame_trans hfr1 hfr2
    obtain ⟨h1, h2, h3, _, h5, h6, _, h8⟩ := hfull
    exact ⟨h1, h2, h3, h5, h6, h8⟩
  · intro st mid src a t hmem hcat
    exact replaceCats_singleton_filters st mid src a t hmem hcat
  · intro st l src rt now hne1 hne2 hne12 hm1 hm2
    obtain ⟨st1, heq1, hmems1, hex1, hpres1⟩ :=
      upsertRelatedMemory_ok st (trimStr l.memoryId) (trimStr l.relatedMemoryId) rt
        l.confidence (if optTruthy l.reason then some (l.reason.getD "") else none) now hm1 hm2
    obtain ⟨st2, heq2, hmems2, hex2, hpres2⟩ :=
      upsertRelatedMemory_ok st1 (trimStr l.relatedMemoryId) (trimStr l.memoryId) rt
        l.confidence (if optTruthy l.reason then some (l.reason.getD "") else none) now
        (by rw [getMemoryById_eq_of_memories hmems1]; exact hm2)
        (by rw [getMemoryById_eq_of_memories hmems1]; exact hm1)
    refine ⟨st2, ?_, ?_, ?_⟩
    · unfold applyOrganizerDecisions organizerCatLoop organizerLinkLoop
      dsimp only
      rw [if_neg (by
        push_neg
        exact ⟨hne1, hne2, hne12⟩)]
      rw [heq1]
      dsimp only
      rw [heq2]
      rfl
    · obtain ⟨row1, hrow1mem, hp1, hp2, hp3, hp4, hp5⟩ := hex1
      refine ⟨row1, ?_, hp1, hp2, hp3, hp4, hp5⟩
      apply hpres2 row1 hrow1mem
      rintro ⟨hq1, _, _⟩
      exact hne12 (hp1 ▸ hq1)
    · exact hex2

end MemorySvc

namespace MemorySvc

def c8MemRow (mid : String) : MemRow :=
  { memoryId := mid, sourceId := "s", latestVersion := 1,
    titleManual := none, notesManual := none,
    summaryAuto := some "a fact", tagsAuto := [],
    effectiveTitle := none, effectiveSummary := some "a fact",
    effectiveTags := [], createdAt := 0, updatedAt := 0,
    meta := { memoryKind := "extracted_atomic_memory" } }

def c8St : St :=
  { memories := [c8MemRow "m1", c8MemRow "m2"] }

/-- C8 witness: linking `m1` and `m2` succeeds with counts `(0, 2)` and leaves
both directed edges in the store. -/
theorem claim_C8_witness :
    ∃ st', applyOrganizerDecisions c8St []
        [{ memoryId := "m1", relatedMemoryId := "m2" }] "organizer_agent" "related" 3
      = (st', Except.ok (0, 2)) ∧
      (∃ row ∈ st'.related, row.memoryId = "m1" ∧ row.relatedMemoryId = "m2") ∧
      (∃ row ∈ st'.related, row.memoryId = "m2" ∧ row.relatedMemoryId = "m1") := by
  obtain ⟨st', heq, hex1, hex2⟩ := claim_C8.2.2.1 c8St
    { memoryId := "m1", relatedMemoryId := "m2" } "organizer_agent" "related" 3
    (by decide) (by decide) (by decide) (by decide) (by decide)
  have ht1 : trimStr "m1" = "m1" := by decide
  have ht2 : trimStr "m2" = "m2" := by decide
  rw [ht1, ht2] at hex1 hex2
  obtain ⟨r1, hr1, hr1a, hr1b, _⟩ := hex1
  obtain ⟨r2, hr2, hr2a, hr2b, _⟩ := hex2
  exact ⟨st', heq, ⟨r1, hr1, hr1a, hr1b⟩, ⟨r2, hr2, hr2a, hr2b⟩⟩

end MemorySvc

namespace MemorySvc

/-! ## C4 support: effects of the per-candidate writes on the memories table -/

theorem mem_sortByQDesc {α : Type} (key : α → ℚ) (l : List α) (a : α) :
    a ∈ sortByQDesc key l ↔ a ∈ l := by
  unfold sortByQDesc
  exact (List.mergeSort_perm l _).mem_iff

theorem updRow_self (memoryId : String) (row m : MemRow) (h : m.memoryId = memoryId) :
    updRow memoryId row m = row :=
  if_pos h

theorem updRow_other (memoryId : String) (row m : MemRow) (h : ¬(m.memoryId = memoryId)) :
    updRow memoryId row m = m :=
  if_neg h

theorem upsertMemoryRecord_spec (st : St) (memoryId sourceId : String)
    (latestVersion : Nat) (summaryAuto : Option String) (tagsAuto : List String)
    (effectiveTitle effectiveSummary : Option String) (effectiveTags : List String)
    (createdAt updatedAt : ℚ) (meta : MemMeta)
    (hsrc : (getSourceById st sourceId).isSome = true) :
    ∃ st1 row, upsertMemoryRecord st memoryId sourceId latestVersion summaryAuto
        tagsAuto effectiveTitle effectiveSummary effectiveTags createdAt updatedAt meta
      = (st1, .ok row) ∧
      row.memoryId = memoryId ∧ row.sourceId = sourceId ∧ row.meta = meta ∧
      row ∈ st1.memories ∧
      (∀ m ∈ st1.memories, m ∈ st.memories ∨ m.memoryId = memoryId) ∧
      (∀ m ∈ st.memories, ¬(m.memoryId = memoryId) → m ∈ st1.memories) := by
  unfold upsertMemoryRecord
  have hfk : (getSourceById st sourceId).isNone = false := by
    obtain ⟨s, hs⟩ := Option.isSome_iff_exists.1 hsrc
    rw [hs]
    rfl
  rw [hfk]
  simp only [Bool.false_eq_true, if_false]
  cases hex : getMemoryById st memoryId with
  | some existing =>
    have hid : existing.memoryId = memoryId := by
      unfold getMemoryById at hex
      have hps := List.find?_some hex
      simp only [decide_eq_true_eq] at hps
      exact hps
    have hmem : existing ∈ st.memories := by
      unfold getMemoryById at hex
      exact List.mem_of_find?_eq_some hex
    refine ⟨_, _, rfl, hid, rfl, rfl, ?_, ?_, ?_⟩
    · refine List.mem_map.2 ⟨existing, hmem, ?_⟩
      exact updRow_self _ _ existing hid
    · intro m hm
      obtain ⟨x, hx, hfx⟩ := List.mem_map.1 hm
      by_cases hxid : x.memoryId = memoryId
      · right
        rw [← hfx, updRow_self memoryId _ x hxid]
        exact hid
      · left
        rw [← hfx, updRow_other memoryId _ x hxid]
        exact hx
    · intro m hm hneq
      refine List.mem_map.2 ⟨m, hm, ?_⟩
      exact updRow_other _ _ m hneq
  | none =>
    refine ⟨_, _, rfl, rfl, rfl, rfl, ?_, ?_, ?_⟩
    · exact List.mem_append_right _ (List.mem_singleton.2 rfl)
    · intro m hm
      rcases List.mem_append.1 hm with hm' | hm'
      · exact Or.inl hm'
      · right
        rw [List.mem_singleton.1 hm']
    · intro m hm _
      exact List.mem_append_left _ hm

theorem replaceMemoryEvidence_memories (st : St) (memoryId sourceId : String)
    (sourceVersion : Nat) (items : List EvidenceItem) (createdAt : ℚ) :
    ((replaceMemoryEvidence st memoryId sourceId sourceVersion items createdAt).1).memories
      = st.memories := by
  unfold replaceMemoryEvidence
  split <;> rfl

end MemorySvc

namespace MemorySvc

theorem upsertMemoryRecord_sources (st : St) (memoryId sourceId : String)
    (latestVersion : Nat) (summaryAuto : Option String) (tagsAuto : List String)
    (effectiveTitle effectiveSummary : Option String) (effectiveTags : List String)
    (createdAt updatedAt : ℚ) (meta : MemMeta) :
    ((upsertMemoryRecord st memoryId sourceId latestVersion summaryAuto tagsAuto
        effectiveTitle effectiveSummary effectiveTags createdAt updatedAt meta).1).sources
      = st.sources := by
  unfold upsertMemoryRecord
  split
  · rfl
  · split <;> rfl

theorem replaceMemoryEvidence_sources (st : St) (memoryId sourceId : String)
    (sourceVersion : Nat) (items : List EvidenceItem) (createdAt : ℚ) :
    ((replaceMemoryEvidence st memoryId sourceId sourceVersion items createdAt).1).sources
      = st.sources := by
  unfold replaceMemoryEvidence
  split <;> rfl

theorem getSourceById_eq_of_sources {st st' : St} (h : st'.sources = st.sources)
    (sid : String) : getSourceById st' sid = getSourceById st sid := by
  unfold getSourceById
  rw [h]

theorem candMemoryId_length (s : String) (c : Candidate) :
    s.length < (candMemoryId s c).length := by
  unfold candMemoryId extractedMemoryId sha256hex
  rw [String.length_append, String.length_append, String.length_append]
  have h7 : ("sha256#" : String).length = 7 := by decide
  have h1 : ("|" : String).length = 1 := by decide
  rw [h7, h1]
  omega

/-- The loop invariant of `applyExtractLoop`: a successful loop leaves every
persisted row in the memories table (with the extraction metadata and the
owning source), keeps `keepMemoryIds` in lockstep with `persistedMemories`,
produces only content-addressed ids (strictly longer than the sourceId), and
touches no memory row other than those whose id it produced. -/
theorem applyExtractLoop_invariant (sourceId : String) (source : SourceRow)
    (version : VersionRow) (existingForSource : List MemRow) (now : ℚ) (st0 : St) :
    ∀ (cands : List Candidate) (st : St) (keep : List String) (persisted : List MemRow)
      (st' : St) (keep' : List String) (persisted' : List MemRow),
      applyExtractLoop sourceId source version existingForSource now st cands keep persisted
        = (st', .ok (keep', persisted')) →
      (getSourceById st sourceId).isSome = true →
      (∀ p ∈ persisted, p ∈ st.memories ∧ p.memoryId ∈ keep ∧ p.sourceId = sourceId ∧
        p.meta.memoryKind = "extracted_atomic_memory") →
      (∀ k ∈ keep, sourceId.length < k.length) →
      keep = persisted.map (fun p => p.memoryId) →
      (∀ m ∈ st.memories, m ∈ st0.memories ∨ m.memoryId ∈ keep) →
      (∀ p ∈ persisted', p ∈ st'.memories ∧ p.memoryId ∈ keep' ∧ p.sourceId = sourceId ∧
        p.meta.memoryKind = "extracted_atomic_memory") ∧
      (∀ k ∈ keep', sourceId.length < k.length) ∧
      keep' = persisted'.map (fun p => p.memoryId) ∧
      (∀ m ∈ st'.memories, m ∈ st0.memories ∨ m.memoryId ∈ keep') := by
  intro cands
  induction cands with
  | nil =>
    intro st keep persisted st' keep' persisted' h _ h1 h2 h3 h4
    unfold applyExtractLoop at h
    have hst : st = st' := congrArg Prod.fst h
    have hsnd := congrArg Prod.snd h
    simp only at hsnd
    have hkp : (keep, persisted) = (keep', persisted') := Except.ok.inj hsnd
    have hk : keep = keep' := congrArg Prod.fst hkp
    have hp : persisted = persisted' := congrArg Prod.snd hkp
    subst hst hk hp
    exact ⟨h1, h2, h3, h4⟩
  | cons c rest ih =>
    intro st keep persisted st' keep' persisted' h hsrc h1 h2 h3 h4
    unfold applyExtractLoop at h
    by_cases hs : candSurvives c = true
    · rw [if_neg (not_not_intro hs)] at h
      dsimp only at h
      by_cases hkc : keep.contains (candMemoryId sourceId c) = true
      · rw [if_pos hkc] at h
        exact ih st keep persisted st' keep' persisted' h hsrc h1 h2 h3 h4
      · rw [if_neg hkc] at h
        obtain ⟨st1', row', hspecEq, hrid, hrsrc, hrmeta, hrowmem, hall, hpres⟩ :=
          upsertMemoryRecord_spec st (candMemoryId sourceId c) sourceId version.version
            (some (candStatement c)) (normalizeTagList c.tags)
            (if optTruthy c.title then some (sliceStr (c.title.getD "") 140) else none)
            (some (candStatement c)) (normalizeTagList c.tags)
            ((((existingForSource.find?
              (fun item => item.memoryId = candMemoryId sourceId c))).map
                (·.createdAt)).getD now) now
            { memoryKind := "extracted_atomic_memory", extractedKind := candKind c,
              extractionFingerprint := candFingerprint c,
              extractionConfidence := c.confidence } hsrc
        rw [hspecEq] at h
        dsimp only at h
        split at h
        · exact absurd (congrArg Prod.snd h) (by simp)
        · rename_i st2 heqcats
          have hcatsfr : OrganizerFrame "extractor_agent" st1' st2 := by
            have hfr := replaceMemoryCategoriesBySource_frame st1'
              (candMemoryId sourceId c) "extractor_agent"
              [{ categoryId := categoryIdForBucket (candKind c), confidence := c.confidence,
                 reason := some "extractor_agent_kind" }] now
            rw [heqcats] at hfr
            exact hfr
          split at h
          · exact absurd (congrArg Prod.snd h) (by simp)
          · rename_i st3 heqev
            have hevmem : st3.memories = st2.memories := by
              have he := replaceMemoryEvidence_memories st2 (candMemoryId sourceId c)
                sourceId version.version
                [{ startOffset := (findCitationOffsets version.contentMarkdown
                      (c.evidenceText.getD "") (candStatement c)).1,
                   endOffset := (findCitationOffsets version.contentMarkdown
                      (c.evidenceText.getD "") (candStatement c)).2,
                   evidenceText := some (if optTruthy c.evidenceText then
                     normalizeSentence (c.evidenceText.getD "") 400 else candStatement c) }] now
              rw [heqev] at he
              exact he
            have hevsrc : st3.sources = st2.sources := by
              have he := replaceMemoryEvidence_sources st2 (candMemoryId sourceId c)
                sourceId version.version
                [{ startOffset := (findCitationOffsets version.contentMarkdown
                      (c.evidenceText.getD "") (candStatement c)).1,
                   endOffset := (findCitationOffsets version.contentMarkdown
                      (c.evidenceText.getD "") (candStatement c)).2,
                   evidenceText := some (if optTruthy c.evidenceText then
                     normalizeSentence (c.evidenceText.getD "") 400 else candStatement c) }] now
              rw [heqev] at he
              exact he
            have hup1src : st1'.sources = st.sources := by
              have hu := upsertMemoryRecord_sources st (candMemoryId sourceId c) sourceId
                version.version (some (candStatement c)) (normalizeTagList c.tags)
                (if optTruthy c.title then some (sliceStr (c.title.getD "") 140) else none)
                (some (candStatement c)) (normalizeTagList c.tags)
                ((((existingForSource.find?
                  (fun item => item.memoryId = candMemoryId sourceId c))).map
                    (·.createdAt)).getD now) now
                { memoryKind := "extracted_atomic_memory", extractedKind := candKind c,
                  extractionFingerprint := candFingerprint c,
                  extractionConfidence := c.confidence }
              rw [hspecEq] at hu
              exact hu
            have hmem32 : st3.memories = st1'.memories := by
              rw [hevmem, hcatsfr.2.2.1]
            have hsrc3 : (getSourceById st3 sourceId).isSome = true := by
              rw [getSourceById_eq_of_sources
                (show st3.sources = st.sources by rw [hevsrc, hcatsfr.1, hup1src])]
              exact hsrc
            refine ih st3 (keep ++ [candMemoryId sourceId c]) (persisted ++ [row'])
              st' keep' persisted' h hsrc3 ?_ ?_ ?_ ?_
            · intro p hp
              rcases List.mem_append.1 hp with hpold | hpnew
              · obtain ⟨hpm, hpk, hps, hpkind⟩ := h1 p hpold
                refine ⟨?_, List.mem_append_left _ hpk, hps, hpkind⟩
                rw [hmem32]
                apply hpres p hpm
                intro hcontra
                rw [hcontra] at hpk
                exact hkc (List.contains_iff_exists_mem_beq.2 ⟨_, hpk, by simp⟩)
              · rw [List.mem_singleton.1 hpnew]
                refine ⟨by rw [hmem32]; exact hrowmem,
                  List.mem_append_right _ (by rw [hrid]; exact List.mem_singleton.2 rfl),
                  hrsrc, by rw [hrmeta]⟩
            · intro k hk
              rcases List.mem_append.1 hk with hkold | hknew
              · exact h2 k hkold
              · rw [List.mem_singleton.1 hknew]
                exact candMemoryId_length sourceId c
            · rw [List.map_append, ← h3, List.map_singleton, hrid]
            · intro m hm
              rw [hmem32] at hm
              rcases hall m hm with hmold | hmnew
              · rcases h4 m hmold with hm0 | hmk
                · exact Or.inl hm0
                · exact Or.inr (List.mem_append_left _ hmk)
              · exact Or.inr (List.mem_append_right _ (by rw [hmnew]; exact List.mem_singleton.2 rfl))
    · rw [if_pos hs] at h
      exact ih st keep persisted st' keep' persisted' h hsrc h1 h2 h3 h4
end MemorySvc

namespace MemorySvc

/-! ## C4: post-state invariant of applyExtractedMemories -/

theorem contains_eq_true_of_mem (l : List String) (a : String) (h : a ∈ l) :
    l.contains a = true :=
  List.contains_iff_exists_mem_beq.2 ⟨a, h, by simp⟩

theorem contains_eq_false_of_not_mem (l : List String) (a : String) (h : ¬ a ∈ l) :
    l.contains a = false := by
  cases hc : l.contains a with
  | false => rfl
  | true =>
    obtain ⟨b, hb, hbeq⟩ := List.contains_iff_exists_mem_beq.1 hc
    exact absurd (by rw [eq_of_beq hbeq]; exact hb) h

theorem deleteMemoryRecord_mem (st : St) (d : String) (m : MemRow) :
    m ∈ (deleteMemoryRecord st d).memories ↔ m ∈ st.memories ∧ ¬(m.memoryId = d) := by
  unfold deleteMemoryRecord
  simp [List.mem_filter]

theorem pruneStale_subset (sourceId : String) (keep : List String) :
    ∀ (l : List MemRow) (st : St) (m : MemRow),
      m ∈ (pruneStale sourceId keep st l).memories → m ∈ st.memories := by
  intro l
  induction l with
  | nil =>
    intro st m hm
    unfold pruneStale at hm
    exact hm
  | cons e rest ih =>
    intro st m hm
    unfold pruneStale at hm
    split at hm
    · exact ih st m hm
    · split at hm
      · exact ((deleteMemoryRecord_mem _ _ _).1 (ih _ m hm)).1
      · exact ih st m hm

theorem pruneStale_keeps (sourceId : String) (keep : List String) :
    ∀ (l : List MemRow) (st : St) (m : MemRow),
      m ∈ st.memories → m.memoryId ∈ keep →
      m ∈ (pruneStale sourceId keep st l).memories := by
  intro l
  induction l with
  | nil =>
    intro st m hm _
    unfold pruneStale
    exact hm
  | cons e rest ih =>
    intro st m hm hk
    unfold pruneStale
    split
    · exact ih st m hm hk
    · split
      · rename_i hcond
        refine ih _ m ((deleteMemoryRecord_mem _ _ _).2 ⟨hm, ?_⟩) hk
        intro heq
        exact hcond.2
          (List.contains_iff_exists_mem_beq.2 ⟨m.memoryId, hk, by rw [heq]; simp⟩)
      · exact ih st m hm hk

theorem pruneStale_kills (sourceId : String) (keep : List String) :
    ∀ (l : List MemRow) (st : St) (e : MemRow), e ∈ l →
      ¬(e.memoryId = sourceId) → isExtractedAtomicMemory e = true →
      ¬(e.memoryId ∈ keep) →
      ∀ m ∈ (pruneStale sourceId keep st l).memories, ¬(m.memoryId = e.memoryId) := by
  intro l
  induction l with
  | nil =>
    intro st e he
    exact absurd he (List.not_mem_nil e)
  | cons a rest ih =>
    intro st e he hne hext hnk m hm
    rcases List.mem_cons.1 he with heq | hmem
    · subst heq
      unfold pruneStale at hm
      have hcontains : keep.contains e.memoryId = false :=
        contains_eq_false_of_not_mem keep e.memoryId hnk
      rw [if_neg hne, if_pos ⟨hext, by simpa using hnk⟩] at hm
      have hmd := pruneStale_subset sourceId keep rest _ m hm
      exact ((deleteMemoryRecord_mem _ _ _).1 hmd).2
    · unfold pruneStale at hm
      split at hm
      · exact ih st e hmem hne hext hnk m hm
      · split at hm
        · exact ih _ e hmem hne hext hnk m hm
        · exact ih st e hmem hne hext hnk m hm

/-- Post-state facts of a successful `applyExtractedMemories`: the legacy row
is gone, surviving extracted rows of the source carry ids produced in this
pass, returned rows are present with the extraction kind, and with
`allowEmpty = false` at least one row was produced. -/
theorem applyExtractedMemories_post (st : St) (sourceId : String)
    (sourceVersion : Option Nat)
    (cands : List Candidate) (allowEmpty : Bool) (now : ℚ) (st' : St) (r : ApplyResult)
    (h : applyExtractedMemories st sourceId sourceVersion cands allowEmpty now
      = (st', Except.ok r)) :
    (∀ m ∈ st'.memories, ¬(m.memoryId = sourceId)) ∧
    (∀ m ∈ st'.memories, m.sourceId = sourceId → isExtractedAtomicMemory m = true →
      m.memoryId ∈ r.extractedMemories.map (fun p => p.memoryId)) ∧
    (∀ p ∈ r.extractedMemories, p ∈ st'.memories ∧
      p.meta.memoryKind = "extracted_atomic_memory" ∧ p.sourceId = sourceId) ∧
    (allowEmpty = false → r.extractedMemories ≠ []) := by
  unfold applyExtractedMemories at h
  split at h
  · exact absurd (congrArg Prod.snd h) (by simp)
  · rename_i source heqsrc
    split at h
    · exact absurd (congrArg Prod.snd h) (by simp)
    · rename_i version heqver
      dsimp only at h
      split at h
      · exact absurd (congrArg Prod.snd h) (by simp)
      · rename_i st1 keep persisted heqloop
        split at h
        · exact absurd (congrArg Prod.snd h) (by simp)
        · rename_i hguard
          injection h with hst hrr
          injection hrr with hrec
          subst hrec
          subst hst
          dsimp only
          have hsrcSome : (getSourceById st sourceId).isSome = true := by
            rw [heqsrc]
            rfl
          obtain ⟨hP, hK, hKP, hAll⟩ := applyExtractLoop_invariant sourceId source version
            (listMemoryRecordsBySource st sourceId) now st cands st [] [] st1 keep persisted
            heqloop hsrcSome
            (fun p hp => absurd hp (List.not_mem_nil p))
            (fun k hk => absurd hk (List.not_mem_nil k)) rfl
            (fun m hm => Or.inl hm)
          refine ⟨?_, ?_, ?_, ?_⟩
          · intro m hm
            exact ((deleteMemoryRecord_mem _ _ _).1 hm).2
          · intro m hm hmsrc hmext
            obtain ⟨hm2, hmne⟩ := (deleteMemoryRecord_mem _ _ _).1 hm
            have hm1 : m ∈ st1.memories := pruneStale_subset sourceId keep _ _ m hm2
            rcases hAll m hm1 with hm0 | hmk
            · have hml : m ∈ listMemoryRecordsBySource st sourceId := by
                unfold listMemoryRecordsBySource
                rw [mem_sortByQDesc]
                exact List.mem_filter.2 ⟨hm0, by simp [hmsrc]⟩
              by_cases hkm : m.memoryId ∈ keep
              · rw [← hKP]
                exact hkm
              · exact absurd rfl
                  (pruneStale_kills sourceId keep _ st1 m hml hmne hmext hkm m hm2)
            · rw [← hKP]
              exact hmk
          · intro p hp
            obtain ⟨hpm, hpk, hps, hpkind⟩ := hP p hp
            have hpne : ¬(p.memoryId = sourceId) := by
              intro heq
              have hlt := hK p.memoryId hpk
              rw [heq] at hlt
              exact lt_irrefl _ hlt
            exact ⟨(deleteMemoryRecord_mem _ _ _).2
              ⟨pruneStale_keeps sourceId keep _ st1 p hpm hpk, hpne⟩, hpkind, hps⟩
          · intro hae hquit
            exact hguard ⟨by simp [hae], hquit⟩

/-- C4: after every successful `applyExtractedMemories` call for a source, no
memory row whose memoryId equals that sourceId remains (the legacy document
row is always deleted), every remaining extracted-atomic-memory row owned by
that source carries a memoryId produced in this pass (stale extracted rows are
pruned), and every returned extracted row is present in the store with
`memoryKind = "extracted_atomic_memory"` and the owning sourceId. -/
theorem claim_C4 (st : St) (sourceId : String) (sourceVersion : Option Nat)
    (cands : List Candidate) (allowEmpty : Bool) (now : ℚ) (st' : St) (r : ApplyResult)
    (h : applyExtractedMemories st sourceId sourceVersion cands allowEmpty now
      = (st', Except.ok r)) :
    (∀ m ∈ st'.memories, ¬(m.memoryId = sourceId)) ∧
    (∀ m ∈ st'.memories, m.sourceId = sourceId → isExtractedAtomicMemory m = true →
      m.memoryId ∈ r.extractedMemories.map (fun p => p.memoryId)) ∧
    (∀ p ∈ r.extractedMemories, p ∈ st'.memories ∧
      p.meta.memoryKind = "extracted_atomic_memory" ∧ p.sourceId = sourceId) := by
  obtain ⟨h1, h2, h3, _⟩ := applyExtractedMemories_post st sourceId sourceVersion
    cands allowEmpty now st' r h
  exact ⟨h1, h2, h3⟩

/-- A store holding a legacy document-memory row (`memoryId = sourceId`) and a
stale extracted row for source `s`, both of which a successful apply must
remove. -/
def c4State : St :=
  { sources := [{ sourceId := "s", sourceFilename := "s.md", sourcePath := none,
                  sourceKind := "markdown", isDeleted := false, firstSeenAt := 0,
                  lastSeenAt := 0, lastChecksum := some "a" }],
    versions := [{ sourceId := "s", version := 1, checksum := "a", fuzzyHash := "fa",
                   contentMarkdown := "The user likes soccer.", agentfsUri := none,
                   contentBytes := 22, createdAt := 0 }],
    memories := [{ memoryId := "s", sourceId := "s", latestVersion := 1,
                   titleManual := none, notesManual := none,
                   summaryAuto := some "legacy document memory", tagsAuto := [],
                   effectiveTitle := none,
                   effectiveSummary := some "legacy document memory",
                   effectiveTags := [], createdAt := 0, updatedAt := 0,
                   meta := { memoryKind := "source_document" } },
                 { memoryId := "stale1", sourceId := "s", latestVersion := 1,
                   titleManual := none, notesManual := none,
                   summaryAuto := some "an outdated fact", tagsAuto := [],
                   effectiveTitle := none, effectiveSummary := some "an outdated fact",
                   effectiveTags := [], createdAt := 0, updatedAt := 0,
                   meta := { memoryKind := "extracted_atomic_memory" } }] }

/-- C4 witness: applying one surviving candidate over `c4State` succeeds, and
the post-state has no legacy `memoryId = "s"` row, only freshly produced
extracted ids for source `s`, and the returned row present with the extracted
kind. -/
theorem claim_C4_witness :
    ∃ st' r, applyExtractedMemories c4State "s" (some 1)
        [{ kind := "preferences", statement := "The user likes soccer." }] false 7
      = (st', Except.ok r) ∧
      (∀ m ∈ st'.memories, ¬(m.memoryId = "s")) ∧
      (∀ m ∈ st'.memories, m.sourceId = "s" → isExtractedAtomicMemory m = true →
        m.memoryId ∈ r.extractedMemories.map (fun p => p.memoryId)) ∧
      (∀ p ∈ r.extractedMemories, p ∈ st'.memories ∧
        p.meta.memoryKind = "extracted_atomic_memory" ∧ p.sourceId = "s") := by
  obtain ⟨st', r, hr⟩ : ∃ st' r, applyExtractedMemories c4State "s" (some 1)
      [{ kind := "preferences", statement := "The user likes soccer." }] false 7
      = (st', Except.ok r) := ⟨_, _, rfl⟩
  obtain ⟨h1, h2, h3⟩ := claim_C4 c4State "s" (some 1)
    [{ kind := "preferences", statement := "The user likes soccer." }] false 7 st' r hr
  exact ⟨st', r, hr, h1, h2, h3⟩

end MemorySvc

namespace MemorySvc

/-! ## C6: failed extraction is recorded on the run and re-raised -/

theorem fst_eq {α β : Type} {p : α × β} {a : α} {b : β} (h : p = (a, b)) : p.1 = a :=
  congrArg Prod.fst h

theorem snd_eq {α β : Type} {p : α × β} {a : α} {b : β} (h : p = (a, b)) : p.2 = b :=
  congrArg Prod.snd h

theorem upsertSource_runs_eq {st : St} {a b : String} {c : Option String}
    {d e : String} {t : ℚ} {st1 : St} {src : SourceRow}
    (h : upsertSource st a b c d e t = (st1, src)) :
    st1.runs = st.runs ∧ st1.nextRunId = st.nextRunId := by
  rw [← fst_eq h]
  unfold upsertSource
  split <;> exact ⟨rfl, rfl⟩

theorem insertVersion_runs_eq {st : St} {v : VersionRow} {st1 : St}
    {r : Except String Unit} (h : insertVersion st v = (st1, r)) :
    st1.runs = st.runs ∧ st1.nextRunId = st.nextRunId := by
  rw [← fst_eq h]
  unfold insertVersion
  split
  · exact ⟨rfl, rfl⟩
  · split
    · exact ⟨rfl, rfl⟩
    · split <;> exact ⟨rfl, rfl⟩

theorem createVersionIfChanged_runs_eq {st : St} {a b c d : String}
    {u : Option String} {n : Nat} {t : ℚ} {st1 : St} {r : Except String VersionResult}
    (h : createVersionIfChanged st a b c d u n t = (st1, r)) :
    st1.runs = st.runs ∧ st1.nextRunId = st.nextRunId := by
  unfold createVersionIfChanged at h
  split at h
  · split at h
    · rw [← fst_eq h]
      exact ⟨rfl, rfl⟩
    · dsimp only at h
      split at h
      · rename_i stI heqI
        rw [← fst_eq h]
        exact insertVersion_runs_eq heqI
      · rename_i stI e heqI
        rw [← fst_eq h]
        exact insertVersion_runs_eq heqI
  · split at h
    · rename_i stI heqI
      rw [← fst_eq h]
      exact insertVersion_runs_eq heqI
    · rename_i stI e heqI
      rw [← fst_eq h]
      exact insertVersion_runs_eq heqI

theorem upsertMemoryRecord_runs_eq {st : St} {mid sid : String} {lv : Nat}
    {sa : Option String} {ta : List String} {et es : Option String} {etg : List String}
    {ca ua : ℚ} {meta : MemMeta} {st1 : St} {r : Except String MemRow}
    (h : upsertMemoryRecord st mid sid lv sa ta et es etg ca ua meta = (st1, r)) :
    st1.runs = st.runs ∧ st1.nextRunId = st.nextRunId := by
  rw [← fst_eq h]
  unfold upsertMemoryRecord
  split
  · exact ⟨rfl, rfl⟩
  · split <;> exact ⟨rfl, rfl⟩

theorem replaceMemoryCategoriesBySource_runs_eq {st : St} {mid src : String}
    {assignments : List CatAssignment} {t : ℚ} {st1 : St} {r : Except String Unit}
    (h : replaceMemoryCategoriesBySource st mid src assignments t = (st1, r)) :
    st1.runs = st.runs ∧ st1.nextRunId = st.nextRunId := by
  have hf := replaceMemoryCategoriesBySource_frame st mid src assignments t
  rw [h] at hf
  exact ⟨hf.2.2.2.2.2.1, hf.2.2.2.2.2.2.1⟩

theorem replaceMemoryEvidence_runs_eq {st : St} {mid sid : String} {sv : Nat}
    {items : List EvidenceItem} {t : ℚ} {st1 : St} {r : Except String Unit}
    (h : replaceMemoryEvidence st mid sid sv items t = (st1, r)) :
    st1.runs = st.runs ∧ st1.nextRunId = st.nextRunId := by
  rw [← fst_eq h]
  unfold replaceMemoryEvidence
  split <;> exact ⟨rfl, rfl⟩

theorem applyExtractLoop_runs_eq {sourceId : String} {source : SourceRow}
    {version : VersionRow} {existing : List MemRow} {now : ℚ} :
    ∀ {cands : List Candidate} {st : St} {keep : List String} {persisted : List MemRow}
      {stL : St} {r : Except String (List String × List MemRow)},
      applyExtractLoop sourceId source version existing now st cands keep persisted
        = (stL, r) →
      stL.runs = st.runs ∧ stL.nextRunId = st.nextRunId := by
  intro cands
  induction cands with
  | nil =>
    intro st keep persisted stL r h
    unfold applyExtractLoop at h
    rw [← fst_eq h]
    exact ⟨rfl, rfl⟩
  | cons c rest ih =>
    intro st keep persisted stL r h
    unfold applyExtractLoop at h
    by_cases hs : candSurvives c = true
    · rw [if_neg (not_not_intro hs)] at h
      dsimp only at h
      by_cases hkc : keep.contains (candMemoryId sourceId c) = true
      · rw [if_pos hkc] at h
        exact ih h
      · rw [if_neg hkc] at h
        split at h
        · rename_i st1 e hequp
          rw [← fst_eq h]
          exact upsertMemoryRecord_runs_eq hequp
        · rename_i st1 prow hequp
          have hu := upsertMemoryRecord_runs_eq hequp
          split at h
          · rename_i st2 e heqc
            rw [← fst_eq h]
            have hc := replaceMemoryCategoriesBySource_runs_eq heqc
            exact ⟨hc.1.trans hu.1, hc.2.trans hu.2⟩
          · rename_i st2 heqc
            have hc := replaceMemoryCategoriesBySource_runs_eq heqc
            split at h
            · rename_i st3 e heqe
              rw [← fst_eq h]
              have he := replaceMemoryEvidence_runs_eq heqe
              exact ⟨he.1.trans (hc.1.trans hu.1), he.2.trans (hc.2.trans hu.2)⟩
            · rename_i st3 heqe
              have he := replaceMemoryEvidence_runs_eq heqe
              have hr := ih h
              exact ⟨hr.1.trans (he.1.trans (hc.1.trans hu.1)),
                     hr.2.trans (he.2.trans (hc.2.trans hu.2))⟩
    · rw [if_pos hs] at h
      exact ih h

theorem pruneStale_runs (sourceId : String) (keep : List String) :
    ∀ (l : List MemRow) (st : St),
      (pruneStale sourceId keep st l).runs = st.runs ∧
      (pruneStale sourceId keep st l).nextRunId = st.nextRunId := by
  intro l
  induction l with
  | nil =>
    intro st
    unfold pruneStale
    exact ⟨rfl, rfl⟩
  | cons e rest ih =>
    intro st
    unfold pruneStale
    split
    · exact ih st
    · split
      · exact ⟨((ih _).1.trans rfl), ((ih _).2.trans rfl)⟩
      · exact ih st

theorem applyExtractedMemories_runs_eq {st : St} {sourceId : String}
    {sv : Option Nat} {cands : List Candidate} {allowEmpty : Bool} {now : ℚ}
    {stA : St} {r : Except String ApplyResult}
    (h : applyExtractedMemories st sourceId sv cands allowEmpty now = (stA, r)) :
    stA.runs = st.runs ∧ stA.nextRunId = st.nextRunId := by
  unfold applyExtractedMemories at h
  split at h
  · rw [← fst_eq h]
    exact ⟨rfl, rfl⟩
  · split at h
    · rw [← fst_eq h]
      exact ⟨rfl, rfl⟩
    · rename_i version heqv
      dsimp only at h
      split at h
      · rename_i st1 e heqloop
        rw [← fst_eq h]
        exact applyExtractLoop_runs_eq heqloop
      · rename_i st1 keep persisted heqloop
        have hl := applyExtractLoop_runs_eq heqloop
        split at h
        · rw [← fst_eq h]
          exact hl
        · rw [← fst_eq h]
          have hp := pruneStale_runs sourceId keep (listMemoryRecordsBySource st sourceId) st1
          exact ⟨hp.1.trans hl.1, hp.2.trans hl.2⟩

theorem ingestTryBlock_runs_eq {st : St} {extractor : Extractor}
    {sourceId sourceFilename : String} {versionNumber : Nat} {strictMarkdown : String}
    {now : ℚ} {stT : St} {r : Except String ApplyResult}
    (h : ingestTryBlock st extractor sourceId sourceFilename versionNumber
      strictMarkdown now = (stT, r)) :
    stT.runs = st.runs ∧ stT.nextRunId = st.nextRunId := by
  unfold ingestTryBlock at h
  split at h
  · rw [← fst_eq h]
    exact ⟨rfl, rfl⟩
  · exact applyExtractedMemories_runs_eq h

theorem startExtractionRun_spec (st : St) (sourceId : String) (sv : Nat)
    (model : String) (t : ℚ) :
    startExtractionRun st sourceId sv model t
      = ({ st with
            runs := st.runs ++
              [{ runId := st.nextRunId, sourceId := sourceId, sourceVersion := sv,
                 model := model, status := "running", startedAt := t,
                 finishedAt := none, extractedCount := 0, errorText := none }],
            nextRunId := st.nextRunId + 1 }, st.nextRunId) := rfl

end MemorySvc

namespace MemorySvc

theorem upsertSource_runs_fst (st : St) (a b : String) (c : Option String)
    (d e : String) (t : ℚ) :
    (upsertSource st a b c d e t).1.runs = st.runs ∧
    (upsertSource st a b c d e t).1.nextRunId = st.nextRunId :=
  upsertSource_runs_eq rfl

/-- C6: whenever an ingestion returns an error, either the failure happened
before any ExtractionRun was opened (the runs table is untouched), or exactly
one run was opened for this source and it ends recorded as `failed` with the
very error text that the call re-raises, finished at the ingestion timestamp,
under the extractor model, consuming the next run id. -/
theorem claim_C6 (st : St) (extractor : Extractor) (p : IngestPayload) (now : ℚ)
    (st' : St) (e : String)
    (hwf : ∀ r ∈ st.runs, ¬(r.runId = st.nextRunId))
    (h : ingestProcessedMarkdown st extractor p now = (st', Except.error e)) :
    st'.runs = st.runs ∨
    ∃ run : RunRow,
      st'.runs = st.runs ++ [run] ∧ run.status = "failed" ∧ run.errorText = some e ∧
      run.extractedCount = 0 ∧ run.finishedAt = some now ∧ run.startedAt = now ∧
      run.model = EXTRACTOR_MODEL ∧
      run.sourceId = (buildSourceId (normalizeIngestFilename p.filename)
        p.externalSourceId).sourceId ∧
      run.runId = st.nextRunId ∧ st'.nextRunId = st.nextRunId + 1 := by
  unfold ingestProcessedMarkdown at h
  dsimp only at h
  split at h
  · exact Or.inl (by rw [← fst_eq h])
  · split at h
    · exact Or.inl (by rw [← fst_eq h])
    · split at h
      · rename_i st2 ecv heqcv
        refine Or.inl ?_
        rw [← fst_eq h]
        exact ((createVersionIfChanged_runs_eq heqcv).1.trans
          (upsertSource_runs_fst _ _ _ _ _ _ _).1)
      · rename_i st2 versionResult heqcv
        split at h
        · exact absurd (snd_eq h) (by simp)
        · rw [startExtractionRun_spec] at h
          dsimp only at h
          split at h
          · exact absurd (snd_eq h) (by simp)
          · rename_i st4 etb heqtb
            injection h with h1 h2
            injection h2 with h3
            subst etb
            subst h1
            have hcv := createVersionIfChanged_runs_eq heqcv
            have hruns2 : st2.runs = st.runs :=
              hcv.1.trans (upsertSource_runs_fst _ _ _ _ _ _ _).1
            have hnid2 : st2.nextRunId = st.nextRunId :=
              hcv.2.trans (upsertSource_runs_fst _ _ _ _ _ _ _).2
            have htb := ingestTryBlock_runs_eq heqtb
            have h4runs : st4.runs = st2.runs ++
                [{ runId := st2.nextRunId,
                   sourceId := (buildSourceId (normalizeIngestFilename p.filename)
                     p.externalSourceId).sourceId,
                   sourceVersion := versionResult.version, model := EXTRACTOR_MODEL,
                   status := "running", startedAt := now, finishedAt := none,
                   extractedCount := 0, errorText := none }] := htb.1
            have h4nid : st4.nextRunId = st2.nextRunId + 1 := htb.2
            refine Or.inr ⟨{ runId := st2.nextRunId,
                             sourceId := (buildSourceId
                               (normalizeIngestFilename p.filename)
                               p.externalSourceId).sourceId,
                             sourceVersion := versionResult.version,
                             model := EXTRACTOR_MODEL,
                             status := "failed", startedAt := now,
                             finishedAt := some now,
                             extractedCount := 0, errorText := some e },
              ?_, rfl, rfl, rfl, rfl, rfl, rfl, rfl, hnid2, ?_⟩
            · have hfin : (finishExtractionRun st4 st2.nextRunId "failed" now 0
                  (some e)).runs
                  = st4.runs.map (fun r => if r.runId = st2.nextRunId then
                      { r with status := "failed", finishedAt := some now,
                               extractedCount := 0, errorText := some e } else r) := rfl
              have hid : st.runs.map (fun r : RunRow => if r.runId = st2.nextRunId then
                  { r with status := "failed", finishedAt := some now,
                           extractedCount := 0, errorText := some e } else r)
                  = st.runs :=
                map_id_on _ st.runs
                  (fun x hx => if_neg (fun hx2 => hwf x hx (hx2.trans hnid2)))
              rw [hfin, h4runs, List.map_append, hruns2, hid, List.map_cons,
                List.map_nil]
              refine congrArg (fun x => st.runs ++ [x]) ?_
              exact if_pos rfl
            · have hnext : st4.nextRunId = st.nextRunId + 1 :=
                h4nid.trans (by rw [hnid2])
              exact hnext

end MemorySvc

namespace MemorySvc

/-- An Extractor that always throws. -/
def c6Extractor : Extractor := fun _ => Except.error "boom"

def c6Payload : IngestPayload :=
  { filename := "notes.md", markdown := "Hello world content." }

/-- C6 witness: ingesting into an empty store with a throwing Extractor
re-raises the error and leaves the run trail governed by the claim. -/
theorem claim_C6_witness :
    ∃ st', ingestProcessedMarkdown ({} : St) c6Extractor c6Payload 3
      = (st', Except.error "boom") ∧
      (st'.runs = ({} : St).runs ∨
      ∃ run : RunRow,
        st'.runs = ({} : St).runs ++ [run] ∧ run.status = "failed" ∧
        run.errorText = some "boom" ∧
        run.extractedCount = 0 ∧ run.finishedAt = some 3 ∧ run.startedAt = 3 ∧
        run.model = EXTRACTOR_MODEL ∧
        run.sourceId = (buildSourceId (normalizeIngestFilename c6Payload.filename)
          c6Payload.externalSourceId).sourceId ∧
        run.runId = ({} : St).nextRunId ∧
        st'.nextRunId = ({} : St).nextRunId + 1) := by
  obtain ⟨st', hr⟩ : ∃ st', ingestProcessedMarkdown ({} : St) c6Extractor c6Payload 3
      = (st', Except.error "boom") := ⟨_, rfl⟩
  exact ⟨st', hr, claim_C6 ({} : St) c6Extractor c6Payload 3 st' "boom"
    (fun r hr2 => absurd hr2 (List.not_mem_nil r)) hr⟩

end MemorySvc

namespace MemorySvc

/-! ## C1 support: versions/memories frames and version-state inversion -/

theorem upsertSource_frame (st : St) (a b : String) (c : Option String)
    (d e : String) (t : ℚ) :
    (upsertSource st a b c d e t).1.versions = st.versions ∧
    (upsertSource st a b c d e t).1.memories = st.memories ∧
    (upsertSource st a b c d e t).1.runs = st.runs ∧
    (upsertSource st a b c d e t).1.nextRunId = st.nextRunId := by
  unfold upsertSource
  split <;> exact ⟨rfl, rfl, rfl, rfl⟩

theorem upsertMemoryRecord_versions_eq {st : St} {mid sid : String} {lv : Nat}
    {sa : Option String} {ta : List String} {et es : Option String} {etg : List String}
    {ca ua : ℚ} {meta : MemMeta} {st1 : St} {r : Except String MemRow}
    (h : upsertMemoryRecord st mid sid lv sa ta et es etg ca ua meta = (st1, r)) :
    st1.versions = st.versions := by
  rw [← fst_eq h]
  unfold upsertMemoryRecord
  split
  · rfl
  · split <;> rfl

theorem replaceMemoryCategoriesBySource_versions_eq {st : St} {mid src : String}
    {assignments : List CatAssignment} {t : ℚ} {st1 : St} {r : Except String Unit}
    (h : replaceMemoryCategoriesBySource st mid src assignments t = (st1, r)) :
    st1.versions = st.versions := by
  have hf := replaceMemoryCategoriesBySource_frame st mid src assignments t
  rw [h] at hf
  exact hf.2.1

theorem replaceMemoryEvidence_versions_eq {st : St} {mid sid : String} {sv : Nat}
    {items : List EvidenceItem} {t : ℚ} {st1 : St} {r : Except String Unit}
    (h : replaceMemoryEvidence st mid sid sv items t = (st1, r)) :
    st1.versions = st.versions := by
  rw [← fst_eq h]
  unfold replaceMemoryEvidence
  split <;> rfl

theorem applyExtractLoop_versions_eq {sourceId : String} {source : SourceRow}
    {version : VersionRow} {existing : List MemRow} {now : ℚ} :
    ∀ {cands : List Candidate} {st : St} {keep : List String} {persisted : List MemRow}
      {stL : St} {r : Except String (List String × List MemRow)},
      applyExtractLoop sourceId source version existing now st cands keep persisted
        = (stL, r) →
      stL.versions = st.versions := by
  intro cands
  induction cands with
  | nil =>
    intro st keep persisted stL r h
    unfold applyExtractLoop at h
    rw [← fst_eq h]
  | cons c rest ih =>
    intro st keep persisted stL r h
    unfold applyExtractLoop at h
    by_cases hs : candSurvives c = true
    · rw [if_neg (not_not_intro hs)] at h
      dsimp only at h
      by_cases hkc : keep.contains (candMemoryId sourceId c) = true
      · rw [if_pos hkc] at h
        exact ih h
      · rw [if_neg hkc] at h
        split at h
        · rename_i st1 e hequp
          rw [← fst_eq h]
          exact upsertMemoryRecord_versions_eq hequp
        · rename_i st1 prow hequp
          have hu := upsertMemoryRecord_versions_eq hequp
          split at h
          · rename_i st2 e heqc
            rw [← fst_eq h]
            exact (replaceMemoryCategoriesBySource_versions_eq heqc).trans hu
          · rename_i st2 heqc
            have hc := replaceMemoryCategoriesBySource_versions_eq heqc
            split at h
            · rename_i st3 e heqe
              rw [← fst_eq h]
              exact (replaceMemoryEvidence_versions_eq heqe).trans (hc.trans hu)
            · rename_i st3 heqe
              have he := replaceMemoryEvidence_versions_eq heqe
              exact (ih h).trans (he.trans (hc.trans hu))
    · rw [if_pos hs] at h
      exact ih h

theorem pruneStale_versions (sourceId : String) (keep : List String) :
    ∀ (l : List MemRow) (st : St),
      (pruneStale sourceId keep st l).versions = st.versions := by
  intro l
  induction l with
  | nil =>
    intro st
    unfold pruneStale
    rfl
  | cons e rest ih =>
    intro st
    unfold pruneStale
    split
    · exact ih st
    · split
      · exact ((ih _).trans rfl)
      · exact ih st

theorem applyExtractedMemories_versions_eq {st : St} {sourceId : String}
    {sv : Option Nat} {cands : List Candidate} {allowEmpty : Bool} {now : ℚ}
    {stA : St} {r : Except String ApplyResult}
    (h : applyExtractedMemories st sourceId sv cands allowEmpty now = (stA, r)) :
    stA.versions = st.versions := by
  unfold applyExtractedMemories at h
  split at h
  · rw [← fst_eq h]
  · split at h
    · rw [← fst_eq h]
    · rename_i version heqv
      dsimp only at h
      split at h
      · rename_i st1 e heqloop
        rw [← fst_eq h]
        exact applyExtractLoop_versions_eq heqloop
      · rename_i st1 keep persisted heqloop
        have hl := applyExtractLoop_versions_eq heqloop
        split at h
        · rw [← fst_eq h]
          exact hl
        · rw [← fst_eq h]
          exact (pruneStale_versions sourceId keep
            (listMemoryRecordsBySource st sourceId) st1).trans hl

theorem getLatestVersion_eq_of_versions {st st' : St}
    (h : st'.versions = st.versions) (sid : String) :
    getLatestVersion st' sid = getLatestVersion st sid := by
  unfold getLatestVersion
  rw [h]

theorem listMemoryRecordsBySource_eq_of_memories {st st' : St}
    (h : st'.memories = st.memories) (sid : String) :
    listMemoryRecordsBySource st' sid = listMemoryRecordsBySource st sid := by
  unfold listMemoryRecordsBySource
  rw [h]

theorem insertVersion_ok_inv {st : St} {v : VersionRow} {stI : St} {u : Unit}
    (h : insertVersion st v = (stI, Except.ok u)) :
    stI = { st with versions := st.versions ++ [v] } := by
  unfold insertVersion at h
  split at h
  · exact absurd (snd_eq h) (by simp)
  · split at h
    · exact absurd (snd_eq h) (by simp)
    · split at h
      · exact absurd (snd_eq h) (by simp)
      · exact (fst_eq h).symm

theorem createVersionIfChanged_latest {st : St} {a ck fh cm : String}
    {au : Option String} {cb : Nat} {t : ℚ} {stA : St} {vr : VersionResult}
    (h : createVersionIfChanged st a ck fh cm au cb t = (stA, Except.ok vr)) :
    ∃ L, getLatestVersion stA a = some L ∧ L.checksum = ck := by
  unfold createVersionIfChanged at h
  split at h
  · rename_i latest hlat
    split at h
    · rename_i hck
      rw [← fst_eq h]
      exact ⟨latest, hlat, hck⟩
    · dsimp only at h
      split at h
      · rename_i stI heqI
        rw [← fst_eq h]
        have hins := insertVersion_ok_inv heqI
        refine ⟨{ sourceId := a, version := latest.version + 1, checksum := ck,
                  fuzzyHash := fh, contentMarkdown := cm, agentfsUri := au,
                  contentBytes := cb, createdAt := t }, ?_, rfl⟩
        rw [hins]
        refine getLatestVersion_append st a _ rfl ?_
        intro w hw hws
        exact Nat.lt_succ_of_le (getLatestVersion_max st a latest hlat w hw hws)
      · exact absurd (snd_eq h) (by simp)
  · rename_i hnone
    split at h
    · rename_i stI heqI
      rw [← fst_eq h]
      have hins := insertVersion_ok_inv heqI
      refine ⟨{ sourceId := a, version := 1, checksum := ck,
                fuzzyHash := fh, contentMarkdown := cm, agentfsUri := au,
                contentBytes := cb, createdAt := t }, ?_, rfl⟩
      rw [hins]
      refine getLatestVersion_append st a _ rfl ?_
      intro w hw hws
      exact absurd hws (getLatestVersion_none st a hnone w hw)
    · exact absurd (snd_eq h) (by simp)

theorem createVersionIfChanged_unchanged_eval (st : St) (a ck fh cm : String)
    (au : Option String) (cb : Nat) (t : ℚ) (L : VersionRow)
    (hL : getLatestVersion st a = some L) (hck : L.checksum = ck) :
    createVersionIfChanged st a ck fh cm au cb t
      = (st, Except.ok { changed := false, version := L.version, row := some L }) := by
  unfold createVersionIfChanged
  rw [hL]
  dsimp only
  rw [if_pos hck]

end MemorySvc

namespace MemorySvc

/-- Evaluating `ingestProcessedMarkdown` on a store whose latest version for
the payload's source already has the payload's checksum, which holds extracted
rows for the source and no legacy document row: the call takes the skip path,
opening no run and returning the stored extracted rows. -/
theorem ingest_skip_eval (stS : St) (extractor : Extractor) (p : IngestPayload)
    (now2 : ℚ) (L : VersionRow)
    (hc1 : ¬(normalizeIngestFilename p.filename = "" ∧
      (buildSourceId (normalizeIngestFilename p.filename)
        p.externalSourceId).normalizedExternalSourceId = ""))
    (hc2 : ¬(trimStr (String.mk (stripCrLf p.markdown.data)) = ""))
    (hL : getLatestVersion stS (buildSourceId (normalizeIngestFilename p.filename)
      p.externalSourceId).sourceId = some L)
    (hLck : L.checksum = sha256hex (String.mk (stripCrLf p.markdown.data)))
    (hne : (listMemoryRecordsBySource stS (buildSourceId
        (normalizeIngestFilename p.filename) p.externalSourceId).sourceId).filter
        isExtractedAtomicMemory ≠ [])
    (hnl : ¬((listMemoryRecordsBySource stS (buildSourceId
        (normalizeIngestFilename p.filename) p.externalSourceId).sourceId).any
        (fun row => row.memoryId = (buildSourceId (normalizeIngestFilename p.filename)
          p.externalSourceId).sourceId) = true)) :
    ∃ st2 res2,
      ingestProcessedMarkdown stS extractor p now2 = (st2, Except.ok res2) ∧
      res2.changed = false ∧ res2.extractionSkipped = true ∧
      res2.extractionRunId = none ∧ st2.runs = stS.runs ∧
      res2.extractedMemories = (listMemoryRecordsBySource stS (buildSourceId
        (normalizeIngestFilename p.filename) p.externalSourceId).sourceId).filter
        isExtractedAtomicMemory := by
  have hfr := upsertSource_frame stS
    (buildSourceId (normalizeIngestFilename p.filename) p.externalSourceId).sourceId
    (if normalizeIngestFilename p.filename ≠ "" then
      basenameStr (normalizeIngestFilename p.filename)
     else (buildSourceId (normalizeIngestFilename p.filename)
      p.externalSourceId).normalizedExternalSourceId)
    (if p.sourcePath ≠ "" then some p.sourcePath
     else if normalizeIngestFilename p.filename ≠ "" then
      some (normalizeIngestFilename p.filename)
     else none)
    "markdown"
    (sha256hex (String.mk (stripCrLf p.markdown.data)))
    now2
  have hmain : ingestProcessedMarkdown stS extractor p now2
      = ((upsertSource stS
          (buildSourceId (normalizeIngestFilename p.filename)
            p.externalSourceId).sourceId
          (if normalizeIngestFilename p.filename ≠ "" then
            basenameStr (normalizeIngestFilename p.filename)
           else (buildSourceId (normalizeIngestFilename p.filename)
            p.externalSourceId).normalizedExternalSourceId)
          (if p.sourcePath ≠ "" then some p.sourcePath
           else if normalizeIngestFilename p.filename ≠ "" then
            some (normalizeIngestFilename p.filename)
           else none)
          "markdown"
          (sha256hex (String.mk (stripCrLf p.markdown.data)))
          now2).1,
        Except.ok
          { source := (upsertSource stS
              (buildSourceId (normalizeIngestFilename p.filename)
                p.externalSourceId).sourceId
              (if normalizeIngestFilename p.filename ≠ "" then
                basenameStr (normalizeIngestFilename p.filename)
               else (buildSourceId (normalizeIngestFilename p.filename)
                p.externalSourceId).normalizedExternalSourceId)
              (if p.sourcePath ≠ "" then some p.sourcePath
               else if normalizeIngestFilename p.filename ≠ "" then
                some (normalizeIngestFilename p.filename)
               else none)
              "markdown"
              (sha256hex (String.mk (stripCrLf p.markdown.data)))
              now2).2,
            memory := ((listMemoryRecordsBySource stS (buildSourceId
              (normalizeIngestFilename p.filename) p.externalSourceId).sourceId).filter
              isExtractedAtomicMemory).head?,
            extractedMemories := (listMemoryRecordsBySource stS (buildSourceId
              (normalizeIngestFilename p.filename) p.externalSourceId).sourceId).filter
              isExtractedAtomicMemory,
            extractedCount := ((listMemoryRecordsBySource stS (buildSourceId
              (normalizeIngestFilename p.filename) p.externalSourceId).sourceId).filter
              isExtractedAtomicMemory).length,
            extractionRunId := none, version := some L,
            changed := false, extractionSkipped := true }) := by
    unfold ingestProcessedMarkdown
    dsimp only
    rw [if_neg hc1, if_neg hc2]
    have hLU : getLatestVersion (upsertSource stS
        (buildSourceId (normalizeIngestFilename p.filename)
          p.externalSourceId).sourceId
        (if normalizeIngestFilename p.filename ≠ "" then
          basenameStr (normalizeIngestFilename p.filename)
         else (buildSourceId (normalizeIngestFilename p.filename)
          p.externalSourceId).normalizedExternalSourceId)
        (if p.sourcePath ≠ "" then some p.sourcePath
         else if normalizeIngestFilename p.filename ≠ "" then
          some (normalizeIngestFilename p.filename)
         else none)
        "markdown"
        (sha256hex (String.mk (stripCrLf p.markdown.data)))
        now2).1
        (buildSourceId (normalizeIngestFilename p.filename)
          p.externalSourceId).sourceId = some L := by
      rw [getLatestVersion_eq_of_versions hfr.1]
      exact hL
    rw [createVersionIfChanged_unchanged_eval _ _ _ _ _ _ _ _ _ hLU hLck]
    dsimp only
    rw [listMemoryRecordsBySource_eq_of_memories hfr.2.1]
    rw [if_pos ⟨rfl, hne, hnl⟩]
  exact ⟨_, _, hmain, rfl, rfl, rfl, hfr.2.2.1, rfl⟩

end MemorySvc

namespace MemorySvc

theorem mem_listMemoryRecordsBySource {st : St} {sid : String} {m : MemRow} :
    m ∈ listMemoryRecordsBySource st sid ↔ m ∈ st.memories ∧ m.sourceId = sid := by
  unfold listMemoryRecordsBySource
  rw [mem_sortByQDesc]
  simp [List.mem_filter]

/-- C1: re-ingesting the byte-identical payload after any successful ingestion
succeeds, reports `changed = false` and `extractionSkipped = true`, opens no
new ExtractionRun (and allocates no run id: the runs table is unchanged), and
returns the same set of extracted memory ids the first call returned. -/
theorem claim_C1 (st : St) (extractor : Extractor) (p : IngestPayload)
    (now1 now2 : ℚ) (st1 : St) (res1 : IngestResult)
    (h1 : ingestProcessedMarkdown st extractor p now1 = (st1, Except.ok res1)) :
    ∃ st2 res2,
      ingestProcessedMarkdown st1 extractor p now2 = (st2, Except.ok res2) ∧
      res2.changed = false ∧ res2.extractionSkipped = true ∧
      res2.extractionRunId = none ∧ st2.runs = st1.runs ∧
      (∀ i, i ∈ res2.extractedMemories.map (fun m => m.memoryId) ↔
            i ∈ res1.extractedMemories.map (fun m => m.memoryId)) := by
  unfold ingestProcessedMarkdown at h1
  dsimp only at h1
  split at h1
  · exact absurd (snd_eq h1) (by simp)
  · rename_i hc1
    split at h1
    · exact absurd (snd_eq h1) (by simp)
    · rename_i hc2
      split at h1
      · exact absurd (snd_eq h1) (by simp)
      · rename_i stA vr1 heqcv1
        obtain ⟨L, hLA, hLck⟩ := createVersionIfChanged_latest heqcv1
        split at h1
        · rename_i hskip
          obtain ⟨hch, hneA, hnlA⟩ := hskip
          injection h1 with hst hres
          injection hres with hres
          subst hst
          subst hres
          obtain ⟨st2, res2, hing, hchg, hskp, hrid, hruns, hext⟩ :=
            ingest_skip_eval _ extractor p now2 L hc1 hc2 hLA hLck hneA hnlA
          refine ⟨st2, res2, hing, hchg, hskp, hrid, hruns, ?_⟩
          intro i
          rw [hext]
        · rename_i hnoskip
          rw [startExtractionRun_spec] at h1
          dsimp only at h1
          split at h1
          · rename_i st4 extraction heqtb
            injection h1 with hst hres
            injection hres with hres
            subst hres
            subst hst
            unfold ingestTryBlock at heqtb
            split at heqtb
            · exact absurd (snd_eq heqtb) (by simp)
            · rename_i cands hex
              obtain ⟨hleg, hidss, hpres, hnonempty⟩ :=
                applyExtractedMemories_post _ _ _ _ _ _ _ _ heqtb
              have hv0 := applyExtractedMemories_versions_eq heqtb
              have hv : (finishExtractionRun st4 stA.nextRunId "success" now1
                  extraction.extractedCount none).versions = stA.versions := hv0
              have hL1 : getLatestVersion (finishExtractionRun st4 stA.nextRunId
                  "success" now1 extraction.extractedCount none)
                  (buildSourceId (normalizeIngestFilename p.filename)
                    p.externalSourceId).sourceId = some L := by
                rw [getLatestVersion_eq_of_versions hv]
                exact hLA
              have hlist1 : listMemoryRecordsBySource (finishExtractionRun st4
                  stA.nextRunId "success" now1 extraction.extractedCount none)
                  (buildSourceId (normalizeIngestFilename p.filename)
                    p.externalSourceId).sourceId
                  = listMemoryRecordsBySource st4
                  (buildSourceId (normalizeIngestFilename p.filename)
                    p.externalSourceId).sourceId :=
                listMemoryRecordsBySource_eq_of_memories rfl _
              obtain ⟨p0, hp0⟩ := List.exists_mem_of_ne_nil _ (hnonempty rfl)
              obtain ⟨hp0mem, hp0kind, hp0src⟩ := hpres p0 hp0
              have hp0ext : isExtractedAtomicMemory p0 = true := by
                simp [isExtractedAtomicMemory, hp0kind]
              have hp0list : p0 ∈ listMemoryRecordsBySource st4
                  (buildSourceId (normalizeIngestFilename p.filename)
                    p.externalSourceId).sourceId :=
                mem_listMemoryRecordsBySource.2 ⟨hp0mem, hp0src⟩
              have hne1 : (listMemoryRecordsBySource (finishExtractionRun st4
                  stA.nextRunId "success" now1 extraction.extractedCount none)
                  (buildSourceId (normalizeIngestFilename p.filename)
                    p.externalSourceId).sourceId).filter
                  isExtractedAtomicMemory ≠ [] := by
                rw [hlist1]
                exact List.ne_nil_of_mem (List.mem_filter.2 ⟨hp0list, hp0ext⟩)
              have hnl1 : ¬((listMemoryRecordsBySource (finishExtractionRun st4
                  stA.nextRunId "success" now1 extraction.extractedCount none)
                  (buildSourceId (normalizeIngestFilename p.filename)
                    p.externalSourceId).sourceId).any
                  (fun row => row.memoryId = (buildSourceId
                    (normalizeIngestFilename p.filename)
                    p.externalSourceId).sourceId) = true) := by
                rw [hlist1]
                intro hany
                simp only [List.any_eq_true, decide_eq_true_eq] at hany
                obtain ⟨row, hrow, hrowid⟩ := hany
                exact hleg row (mem_listMemoryRecordsBySource.1 hrow).1 hrowid
              obtain ⟨st2, res2, hing, hchg, hskp, hrid, hruns, hext⟩ :=
                ingest_skip_eval _ extractor p now2 L hc1 hc2 hL1 hLck hne1 hnl1
              refine ⟨st2, res2, hing, hchg, hskp, hrid, hruns, ?_⟩
              intro i
              rw [hext, hlist1]
              constructor
              · intro hi
                obtain ⟨m, hm, hmi⟩ := List.mem_map.1 hi
                obtain ⟨hml, hmext⟩ := List.mem_filter.1 hm
                obtain ⟨hmm, hmsrc⟩ := mem_listMemoryRecordsBySource.1 hml
                rw [← hmi]
                exact hidss m hmm hmsrc hmext
              · intro hi
                obtain ⟨q, hq, hqi⟩ := List.mem_map.1 hi
                obtain ⟨hqmem, hqkind, hqsrc⟩ := hpres q hq
                have hqext : isExtractedAtomicMemory q = true := by
                  simp [isExtractedAtomicMemory, hqkind]
                rw [← hqi]
                exact List.mem_map.2 ⟨q, List.mem_filter.2
                  ⟨mem_listMemoryRecordsBySource.2 ⟨hqmem, hqsrc⟩, hqext⟩, rfl⟩
          · exact absurd (snd_eq h1) (by simp)

end MemorySvc

namespace MemorySvc

/-- An Extractor returning one well-formed candidate fact. -/
def c1Extractor : Extractor :=
  fun _ => Except.ok [{ kind := "preferences", statement := "The user likes soccer." }]

def c1Payload : IngestPayload :=
  { filename := "notes.md", markdown := "The user likes soccer." }

/-- C1 witness: a concrete first ingestion into an empty store succeeds, and
the byte-identical second ingestion skips extraction with an unchanged source,
no new run, and the same extracted id set. -/
theorem claim_C1_witness :
    ∃ st1 res1, ingestProcessedMarkdown ({} : St) c1Extractor c1Payload 1
        = (st1, Except.ok res1) ∧
      ∃ st2 res2, ingestProcessedMarkdown st1 c1Extractor c1Payload 2
          = (st2, Except.ok res2) ∧
        res2.changed = false ∧ res2.extractionSkipped = true ∧
        res2.extractionRunId = none ∧ st2.runs = st1.runs ∧
        (∀ i, i ∈ res2.extractedMemories.map (fun m => m.memoryId) ↔
              i ∈ res1.extractedMemories.map (fun m => m.memoryId)) := by
  obtain ⟨st1, res1, h1⟩ : ∃ st1 res1,
      ingestProcessedMarkdown ({} : St) c1Extractor c1Payload 1
        = (st1, Except.ok res1) := ⟨_, _, rfl⟩
  exact ⟨st1, res1, h1, claim_C1 ({} : St) c1Extractor c1Payload 1 2 st1 res1 h1⟩

end MemorySvc

namespace MemorySvc

/-! ## C7 support: sortedness of the ranking and of the recency ordering -/

theorem pairwise_get_le {α : Type} {R : α → α → Prop}
    (l : List α) (h : l.Pairwise R) (hrefl : ∀ a, R a a) (i j : Nat) (hi : i < l.length)
    (hj : j < l.length) (hij : i ≤ j) : R (l.get ⟨i, hi⟩) (l.get ⟨j, hj⟩) := by
  rcases Nat.lt_or_ge i j with hlt | hge
  · exact List.pairwise_iff_get.1 h ⟨i, hi⟩ ⟨j, hj⟩ hlt
  · have heq : i = j := Nat.le_antisymm hij hge
    subst heq
    exact hrefl _

theorem sortByQDesc_pairwise {α : Type} (key : α → ℚ) (l : List α) :
    (sortByQDesc key l).Pairwise (fun a b => key b ≤ key a) := by
  unfold sortByQDesc
  have h : (l.mergeSort (fun x y => decide (key y ≤ key x))).Pairwise
      (fun a b => (fun x y => decide (key y ≤ key x)) a b = true) := by
    apply List.sorted_mergeSort
    · intro a b c hab hbc
      exact decide_eq_true (le_trans (of_decide_eq_true hbc) (of_decide_eq_true hab))
    · intro a b
      rw [Bool.or_eq_true]
      exact (le_total (key b) (key a)).imp decide_eq_true decide_eq_true
  exact h.imp (fun hab => of_decide_eq_true hab)

theorem rankedSort_pairwise (l : List (Note × ℝ)) :
    (l.mergeSort (fun x y => decide (y.2 ≤ x.2))).Pairwise
      (fun a b => b.2 ≤ a.2) := by
  have h : (l.mergeSort (fun x y => decide (y.2 ≤ x.2))).Pairwise
      (fun a b => (fun x y => decide (y.2 ≤ x.2)) a b = true) := by
    apply List.sorted_mergeSort
    · intro a b c hab hbc
      exact decide_eq_true (le_trans (of_decide_eq_true hbc) (of_decide_eq_true hab))
    · intro a b
      rw [Bool.or_eq_true]
      exact (le_total b.2 a.2).imp decide_eq_true decide_eq_true
  exact h.imp (fun hab => of_decide_eq_true hab)

theorem listByProject_subset (notes : List Note) (pf : Option String) (lim : Int)
    (n : Note) (h : n ∈ listByProject notes pf lim) : n ∈ notes := by
  unfold listByProject at h
  dsimp only at h
  have h1 := List.mem_of_mem_take h
  rw [mem_sortByQDesc] at h1
  exact (List.mem_filter.1 h1).1

theorem listByProject_project (notes : List Note) (p : String) (lim : Int)
    (n : Note) (h : n ∈ listByProject notes (some p) lim) : n.project = some p := by
  unfold listByProject at h
  dsimp only at h
  have h1 := List.mem_of_mem_take h
  rw [mem_sortByQDesc] at h1
  have h2 := (List.mem_filter.1 h1).2
  simpa using h2

theorem mergeSort_length_eq {α : Type} (l : List α) (cmp : α → α → Bool) :
    (l.mergeSort cmp).length = l.length :=
  (List.mergeSort_perm l cmp).length_eq

theorem sortByQDesc_length {α : Type} (key : α → ℚ) (l : List α) :
    (sortByQDesc key l).length = l.length := by
  unfold sortByQDesc
  exact mergeSort_length_eq _ _

/-- The clamp `listByProject` re-applies to an already clamped limit is the
identity: the search limit sits in [1, 100] ⊆ [1, 500]. -/
theorem searchLimit_reclamp (limit : Int) :
    (min 500 (max 1 ((clampInt limit 1 100 15).toNat : Int))).toNat
      = (clampInt limit 1 100 15).toNat := by
  unfold clampInt
  omega

/-- The project filter predicate of `listByProject`, evaluated when a
project is given. -/
theorem filterPred_project {project : String} {x : Note}
    (hp : trimStr project ≠ "")
    (hx : (match (if trimStr project ≠ "" then some (trimStr project) else none :
        Option String) with
      | none => true
      | some q => decide (x.project = some q)) = true) :
    x.project = some (trimStr project) := by
  rw [if_pos hp] at hx
  simpa using hx

/-- Selection property of `take` on a list sorted by `R`: every element of the
source list is either kept, or it is R-below every kept element. -/
theorem take_topk {α : Type} {R : α → α → Prop} (l : List α) (h : l.Pairwise R)
    (k : Nat) (x : α) (hx : x ∈ l) :
    x ∈ l.take k ∨ ∀ y ∈ l.take k, R y x := by
  obtain ⟨i, hi, hxi⟩ := List.mem_iff_getElem.1 hx
  by_cases hik : i < k
  · left
    have hit : i < (l.take k).length := by
      simp only [List.length_take]
      omega
    have hgt : (l.take k)[i] = x := by
      rw [List.getElem_take]
      exact hxi
    rw [← hgt]
    exact List.getElem_mem hit
  · right
    intro y hy
    obtain ⟨j, hj, hyj⟩ := List.mem_iff_getElem.1 hy
    have hjl : j < l.length := by
      simp only [List.length_take] at hj
      omega
    have hji : j < i := by
      simp only [List.length_take] at hj
      omega
    have hyl : y = l.get ⟨j, hjl⟩ := by
      rw [← hyj, List.getElem_take]
      rfl
    rw [hyl, ← hxi]
    exact List.pairwise_iff_get.1 h ⟨j, hjl⟩ ⟨i, hi⟩ hji

/-- C7: with a non-empty (trimmed) query, `searchMemories` returns exactly
`min(clamped limit, candidate count)` citations, ranked 1..N, in
non-increasing score order; every returned citation carries the weighted-sum
score `0.82·cosine + 0.13·lexical + recency` of a note from the
project-filtered candidate window, and every candidate of that window is
either represented in the result or scores no higher than every returned
citation (the result is the top-limit selection).  With an empty query it
returns `min(clamped limit, filtered count)` citations over the
project-filtered notes in non-increasing createdAt order, every filtered note
being either returned or no more recent than every returned one. -/
theorem claim_C7 (notes : List Note) (query project : String) (limit : Int)
    (now : ℚ) (embedQuery : String → List ℝ) (digest : Digest)
    (res : List Citation)
    (hres : searchMemories notes query project limit now embedQuery digest = res) :
    (trimStr query ≠ "" →
      (∀ i (hi : i < res.length), (res.get ⟨i, hi⟩).rank = i + 1) ∧
      res.length ≤ (clampInt limit 1 100 15).toNat ∧
      res.length = min (clampInt limit 1 100 15).toNat
        (listByProject notes (if trimStr project ≠ "" then some (trimStr project)
          else none) 500).length ∧
      (∀ i j (hi : i < res.length) (hj : j < res.length), i ≤ j →
        (res.get ⟨j, hj⟩).score ≤ (res.get ⟨i, hi⟩).score) ∧
      (∀ c ∈ res, ∃ note,
        note ∈ listByProject notes (if trimStr project ≠ "" then
          some (trimStr project) else none) 500 ∧
        note ∈ notes ∧
        (trimStr project ≠ "" → note.project = some (trimStr project)) ∧
        c.note = (materializeCitation note c.score c.rank).note ∧
        c.score = noteScore digest (embedQuery (trimStr query))
          (jsTokenize (trimStr query)) now note) ∧
      (∀ note ∈ listByProject notes (if trimStr project ≠ "" then
          some (trimStr project) else none) 500,
        (∃ c ∈ res, c.note = (materializeCitation note c.score c.rank).note ∧
          c.score = noteScore digest (embedQuery (trimStr query))
            (jsTokenize (trimStr query)) now note) ∨
        (∀ c ∈ res, noteScore digest (embedQuery (trimStr query))
          (jsTokenize (trimStr query)) now note ≤ c.score))) ∧
    (trimStr query = "" →
      (∀ i (hi : i < res.length), (res.get ⟨i, hi⟩).rank = i + 1) ∧
      res.length = min (clampInt limit 1 100 15).toNat
        (notes.filter (fun n =>
          match (if trimStr project ≠ "" then some (trimStr project) else none) with
          | none => true
          | some p => n.project = some p)).length ∧
      (∀ i j (hi : i < res.length) (hj : j < res.length), i ≤ j →
        (res.get ⟨j, hj⟩).note.createdAt ≤ (res.get ⟨i, hi⟩).note.createdAt) ∧
      (∀ c ∈ res, ∃ note, note ∈ notes ∧
        (trimStr project ≠ "" → note.project = some (trimStr project)) ∧
        c.note = (materializeCitation note c.score c.rank).note) ∧
      (∀ note ∈ notes,
        (trimStr project = "" ∨ note.project = some (trimStr project)) →
        (∃ c ∈ res, c.note = (materializeCitation note c.score c.rank).note) ∨
        (∀ c ∈ res, note.createdAt ≤ c.note.createdAt))) := by
  unfold searchMemories at hres
  dsimp only at hres
  by_cases hq : trimStr query = ""
  · rw [if_pos hq] at hres
    subst hres
    refine ⟨fun hq' => absurd hq hq', fun _ => ?_⟩
    unfold listByProject
    dsimp only
    rw [searchLimit_reclamp]
    refine ⟨?_, ?_, ?_, ?_, ?_⟩
    · intro i hi
      simp only [List.get_eq_getElem, List.getElem_mapIdx]
      rfl
    · simp only [List.length_mapIdx, List.length_take, sortByQDesc_length]
    · intro i j hi hj hij
      simp only [List.get_eq_getElem, List.getElem_mapIdx]
      have hi' : i < ((sortByQDesc (fun n => n.createdAt) (notes.filter (fun n =>
          match (if trimStr project ≠ "" then some (trimStr project) else none) with
          | none => true
          | some p => n.project = some p))).take
          (clampInt limit 1 100 15).toNat).length := by
        simpa using hi
      have hj' : j < ((sortByQDesc (fun n => n.createdAt) (notes.filter (fun n =>
          match (if trimStr project ≠ "" then some (trimStr project) else none) with
          | none => true
          | some p => n.project = some p))).take
          (clampInt limit 1 100 15).toNat).length := by
        simpa using hj
      exact pairwise_get_le _
        ((sortByQDesc_pairwise _ _).sublist (List.take_sublist _ _))
        (fun a => le_refl _) i j hi' hj' hij
    · intro c hc
      rw [List.mem_mapIdx] at hc
      obtain ⟨i, hi, hf⟩ := hc
      have hmemT := List.getElem_mem hi
      have hmemS := List.mem_of_mem_take hmemT
      rw [mem_sortByQDesc] at hmemS
      obtain ⟨hmm, hpred⟩ := List.mem_filter.1 hmemS
      refine ⟨_, hmm, ?_, ?_⟩
      · intro hp
        exact filterPred_project hp hpred
      · rw [← hf]
        rfl
    · intro note hnote hpf
      have hfilt : note ∈ notes.filter (fun n =>
          match (if trimStr project ≠ "" then some (trimStr project) else none) with
          | none => true
          | some p => n.project = some p) := by
        refine List.mem_filter.2 ⟨hnote, ?_⟩
        by_cases hp : trimStr project = ""
        · simp [hp]
        · simp [hp, hpf.resolve_left hp]
      have hsorted := (mem_sortByQDesc (fun n => n.createdAt) _ note).2 hfilt
      rcases take_topk _ (sortByQDesc_pairwise _ _)
          ((clampInt limit 1 100 15).toNat) note hsorted with hin | hout
      · left
        obtain ⟨i, hi, hnoteI⟩ := List.mem_iff_getElem.1 hin
        refine ⟨_, List.mem_mapIdx.2 ⟨i, hi, rfl⟩, ?_⟩
        rw [hnoteI]
        rfl
      · right
        intro c hc
        rw [List.mem_mapIdx] at hc
        obtain ⟨j, hj, hf⟩ := hc
        have hle := hout _ (List.getElem_mem hj)
        rw [← hf]
        exact hle
  · rw [if_neg hq] at hres
    refine ⟨fun _ => ?_, fun hq' => absurd hq' hq⟩
    by_cases hemp : (listByProject notes
        (if trimStr project ≠ "" then some (trimStr project) else none)
        500).isEmpty = true
    · rw [if_pos hemp] at hres
      subst hres
      refine ⟨?_, ?_, ?_, ?_, ?_, ?_⟩
      · intro i hi
        exact absurd hi (by simp)
      · exact Nat.zero_le _
      · rw [List.isEmpty_iff.1 hemp]
        simp
      · intro i j hi hj hij
        exact absurd hi (by simp)
      · intro c hc
        exact absurd hc (List.not_mem_nil c)
      · intro note hnote
        rw [List.isEmpty_iff.1 hemp] at hnote
        exact absurd hnote (List.not_mem_nil note)
    · rw [if_neg hemp] at hres
      subst hres
      refine ⟨?_, ?_, ?_, ?_, ?_, ?_⟩
      · intro i hi
        simp only [List.get_eq_getElem, List.getElem_mapIdx]
        rfl
      · simp only [List.length_mapIdx, List.length_take]
        exact min_le_left _ _
      · simp only [List.length_mapIdx, List.length_take, mergeSort_length_eq,
          List.length_map]
      · intro i j hi hj hij
        simp only [List.get_eq_getElem, List.getElem_mapIdx]
        have hi' : i < ((((listByProject notes
            (if trimStr project ≠ "" then some (trimStr project) else none)
            500).map (fun note => (note, noteScore digest
              (embedQuery (trimStr query)) (jsTokenize (trimStr query)) now
              note))).mergeSort (fun x y => decide (y.2 ≤ x.2))).take
            (clampInt limit 1 100 15).toNat).length := by
          simpa using hi
        have hj' : j < ((((listByProject notes
            (if trimStr project ≠ "" then some (trimStr project) else none)
            500).map (fun note => (note, noteScore digest
              (embedQuery (trimStr query)) (jsTokenize (trimStr query)) now
              note))).mergeSort (fun x y => decide (y.2 ≤ x.2))).take
            (clampInt limit 1 100 15).toNat).length := by
          simpa using hj
        have hpair := (rankedSort_pairwise ((listByProject notes
            (if trimStr project ≠ "" then some (trimStr project) else none)
            500).map (fun note => (note, noteScore digest
              (embedQuery (trimStr query)) (jsTokenize (trimStr query)) now
              note)))).sublist (List.take_sublist (clampInt limit 1 100 15).toNat _)
        exact pairwise_get_le _ hpair (fun a => le_refl _) i j hi' hj' hij
      · intro c hc
        rw [List.mem_mapIdx] at hc
        obtain ⟨i, hi, hf⟩ := hc
        have hmem := List.mem_of_mem_take (List.getElem_mem hi)
        rw [(List.mergeSort_perm _ _).mem_iff] at hmem
        obtain ⟨note, hnote, hpairEq⟩ := List.mem_map.1 hmem
        refine ⟨note, hnote, listByProject_subset _ _ _ _ hnote, ?_, ?_, ?_⟩
        · intro hp
          rw [if_pos hp] at hnote
          exact listByProject_project _ _ _ _ hnote
        · rw [← hf, ← hpairEq]
          rfl
        · rw [← hf, ← hpairEq]
          rfl
      · intro note hnote
        have hr : (note, noteScore digest (embedQuery (trimStr query))
            (jsTokenize (trimStr query)) now note) ∈ (listByProject notes
            (if trimStr project ≠ "" then some (trimStr project) else none)
            500).map (fun note => (note, noteScore digest
              (embedQuery (trimStr query)) (jsTokenize (trimStr query)) now
              note)) :=
          List.mem_map.2 ⟨note, hnote, rfl⟩
        have hrS := (List.mergeSort_perm _
          (fun x y => decide ((y : Note × ℝ).2 ≤ x.2))).mem_iff.2 hr
        rcases take_topk _ (rankedSort_pairwise _)
            ((clampInt limit 1 100 15).toNat) _ hrS with hin | hout
        · left
          obtain ⟨i, hi, hpairI⟩ := List.mem_iff_getElem.1 hin
          refine ⟨_, List.mem_mapIdx.2 ⟨i, hi, rfl⟩, ?_, ?_⟩
          · rw [hpairI]
            rfl
          · rw [hpairI]
            rfl
        · right
          intro c hc
          rw [List.mem_mapIdx] at hc
          obtain ⟨j, hj, hf⟩ := hc
          have hle := hout _ (List.getElem_mem hj)
          rw [← hf]
          exact hle

end MemorySvc

namespace MemorySvc

def c7Note : Note :=
  { id := "n1", content := "soccer practice notes", summary := "likes soccer",
    createdAt := 5 }

def c7Embed : String → List ℝ := fun _ => [1]

def c7Digest : Digest := fun _ => (0, 1)

/-- C7 witness: the non-empty-query ranking contract instantiated at a
concrete store, query and collaborators, with the branch hypothesis
discharged by evaluation. -/
theorem claim_C7_witness :
    (∀ i (hi : i < (searchMemories [c7Note] "soccer" "" 5 0 c7Embed
        c7Digest).length),
      ((searchMemories [c7Note] "soccer" "" 5 0 c7Embed c7Digest).get
        ⟨i, hi⟩).rank = i + 1) ∧
    (searchMemories [c7Note] "soccer" "" 5 0 c7Embed c7Digest).length
      ≤ (clampInt 5 1 100 15).toNat ∧
    (searchMemories [c7Note] "soccer" "" 5 0 c7Embed c7Digest).length
      = min (clampInt 5 1 100 15).toNat
        (listByProject [c7Note] (if trimStr "" ≠ "" then some (trimStr "")
          else none) 500).length ∧
    (∀ i j (hi : i < (searchMemories [c7Note] "soccer" "" 5 0 c7Embed
        c7Digest).length)
      (hj : j < (searchMemories [c7Note] "soccer" "" 5 0 c7Embed
        c7Digest).length), i ≤ j →
      ((searchMemories [c7Note] "soccer" "" 5 0 c7Embed c7Digest).get
        ⟨j, hj⟩).score ≤
      ((searchMemories [c7Note] "soccer" "" 5 0 c7Embed c7Digest).get
        ⟨i, hi⟩).score) ∧
    (∀ c ∈ searchMemories [c7Note] "soccer" "" 5 0 c7Embed c7Digest,
      ∃ note,
      note ∈ listByProject [c7Note] (if trimStr "" ≠ "" then some (trimStr "")
        else none) 500 ∧
      note ∈ [c7Note] ∧
      (trimStr "" ≠ "" → note.project = some (trimStr "")) ∧
      c.note = (materializeCitation note c.score c.rank).note ∧
      c.score = noteScore c7Digest (c7Embed (trimStr "soccer"))
        (jsTokenize (trimStr "soccer")) 0 note) ∧
    (∀ note ∈ listByProject [c7Note] (if trimStr "" ≠ "" then some (trimStr "")
        else none) 500,
      (∃ c ∈ searchMemories [c7Note] "soccer" "" 5 0 c7Embed c7Digest,
        c.note = (materializeCitation note c.score c.rank).note ∧
        c.score = noteScore c7Digest (c7Embed (trimStr "soccer"))
          (jsTokenize (trimStr "soccer")) 0 note) ∨
      (∀ c ∈ searchMemories [c7Note] "soccer" "" 5 0 c7Embed c7Digest,
        noteScore c7Digest (c7Embed (trimStr "soccer"))
          (jsTokenize (trimStr "soccer")) 0 note ≤ c.score)) :=
  (claim_C7 [c7Note] "soccer" "" 5 0 c7Embed c7Digest _ rfl).1 (by decide)

end MemorySvc
